import Mathlib

/-!
# mpags-cipher: command-line parsing and the chunked cipher pipeline

A shallow embedding of `processCommandLine` (MPAGSCipher/ProcessCommandLine.cpp)
and of the cipher-application part of `main` (mpags-cipher.cpp), followed by
theorems about them.

Conventions of the embedding
* `std::string` is `String`; its `size()` is `String.length` and its characters
  are the list `String.data`.
* `std::vector<T>` is `List T`; `push_back` appends at the end.
* `std::size_t` values are `Nat`.  Every size computed by the embedded code is
  bounded by the size of a container that exists at that point (see
  `main.chunk_in_range`), so no modular wrap-around can occur.
* A C++ function that can throw returns the exception as a value.
* `reserve` only changes the capacity of a vector, never its contents, and is
  therefore not visible in the embedding.  Whether `reserve` or `push_back`
  throws `std::length_error` or `std::bad_alloc` for a very large count depends
  on `max_size()` and on the memory available, and is not modelled.
-/

namespace MPAGSCipher

/-! ## Data model -/

/-- Enumeration `CipherMode` (CipherMode.hpp). -/
inductive CipherMode where
  | Encrypt
  | Decrypt
  deriving DecidableEq, Repr

/-- Enumeration `CipherType` (CipherType.hpp). -/
inductive CipherType where
  | Caesar
  | Playfair
  | Vigenere
  deriving DecidableEq, Repr

/-- Aggregate `ProgramSettings`; the field order is the one of the brace
initialiser `{false, false, "", "", {}, {}, CipherMode::Encrypt}` used by `main`
and by every test case. -/
structure ProgramSettings where
  helpRequested : Bool
  versionRequested : Bool
  inputFile : String
  outputFile : String
  cipherType : List CipherType
  cipherKey : List String
  cipherMode : CipherMode
  deriving DecidableEq, Repr

/-- The configuration `{false, false, "", "", {}, {}, CipherMode::Encrypt}`. -/
def emptySettings : ProgramSettings :=
  { helpRequested := false, versionRequested := false, inputFile := "", outputFile := "",
    cipherType := [], cipherKey := [], cipherMode := CipherMode.Encrypt }

/-- Abstract interface `Cipher`: the only capability `main` uses is
`applyCipher(text, mode)`.  The concrete ciphers are external collaborators, so
a cipher is any function of that shape. -/
structure Cipher where
  applyCipher : String → CipherMode → String

/-! ## The cipher pipeline of `main` (mpags-cipher.cpp, lines 111-151) -/

/-- Method `std::string::substr(pos, count)`: `none` stands for the
`std::out_of_range` thrown when `pos > size()`; otherwise the characters
`[pos, pos + min(count, size() - pos))`. -/
def substr (s : String) (pos count : Nat) : Option String :=
  if pos > s.length then none else some ⟨(s.data.drop pos).take count⟩

namespace main

/-- Local `numThreads` of `main`. -/
def numThreads : Nat := 4

/-- Local `partSize = length / numThreads`. -/
def partSize (cipherText : String) : Nat := cipherText.length / numThreads

/-- Local `start = partSize * i` of loop iteration `i`. -/
def start (cipherText : String) (i : Nat) : Nat := partSize cipherText * i

/-- Local `currentPartSize` of loop iteration `i`:
`start + partSize > length ? length - start : partSize`. -/
def currentPartSize (cipherText : String) (i : Nat) : Nat :=
  if start cipherText i + partSize cipherText > cipherText.length
  then cipherText.length - start cipherText i
  else partSize cipherText

/-- The argument `cipherText.substr(start, currentPartSize)` handed to the
worker of loop iteration `i`. -/
def chunk (cipherText : String) (i : Nat) : Option String :=
  substr cipherText (start cipherText i) (currentPartSize cipherText i)

/-- The worker lambda: starting from its chunk, apply every cipher of the
(already ordered) sequence in turn. -/
def worker (ciphers : List Cipher) (cipherMode : CipherMode) (text : String) : String :=
  ciphers.foldl (fun result cipher => cipher.applyCipher result cipherMode) text

/-- The launching loop `for (i = 0; i < numThreads; ++i)`: iteration `i` pushes
the future of the worker run on chunk `i`.  A future is represented by the
value its `get()` yields. -/
def launch (ciphers : List Cipher) (cipherMode : CipherMode) (cipherText : String) :
    Option (List String) :=
  (List.range numThreads).foldlM
    (fun futures i =>
      match chunk cipherText i with
      | none => none
      | some text => some (futures ++ [worker ciphers cipherMode text]))
    []

/-- The gathering loop: `finalResult += future.get()` for each future in
vector order. -/
def gather (futures : List String) : String :=
  futures.foldl (fun finalResult future => finalResult ++ future) ""

/-- Lines 111-151 of `main`: reverse the ciphers when decrypting, split the
text, run the workers, concatenate their results.  The value is the new
`cipherText`. -/
def runCiphers (ciphers : List Cipher) (cipherMode : CipherMode) (cipherText : String) :
    Option String :=
  let ciphers := if cipherMode = CipherMode.Decrypt then ciphers.reverse else ciphers
  match launch ciphers cipherMode cipherText with
  | none => none
  | some futures => some (gather futures)

/-- The substrings handed to the workers, in chunk-index order: the launching
loop with each worker replaced by the text it is given. -/
def chunks (cipherText : String) : Option (List String) :=
  (List.range numThreads).foldlM
    (fun substrings i =>
      match chunk cipherText i with
      | none => none
      | some text => some (substrings ++ [text]))
    []

end main

/-! ## Exceptions (MPAGSCipher/Exceptions.hpp) -/

/-- The three exception classes of Exceptions.hpp, each carrying its message,
and a marker `OutOfBounds` for an unchecked `operator[]` outside the vector
(undefined behaviour in C++). -/
inductive Exception where
  | MissingArgument (msg : String)
  | InvalidArgument (msg : String)
  | InvalidKey (msg : String)
  | OutOfBounds
  deriving DecidableEq, Repr

/-! ## Library functions used by `processCommandLine` -/

/-- Largest value of `unsigned long` (64 bits). -/
def ULONG_MAX : Nat := 2 ^ 64 - 1

/-- The two exceptions `std::stoul` can throw. -/
inductive StoulError where
  | invalid_argument
  | out_of_range
  deriving DecidableEq, Repr

/-- Classification `isspace` in the C locale. -/
def isspace (c : Char) : Bool :=
  c = ' ' || c = '\t' || c = '\n' || c = '\x0b' || c = '\x0c' || c = '\r'

/-- The optional sign that `strtoul` accepts in front of the digits. -/
def skipSign : List Char → List Char
  | '-' :: r => r
  | '+' :: r => r
  | s => s

/-- Conversion `std::stoul(str)` with the default base 10, as `strtoul` does it:
skip leading white space, accept one optional sign, read the longest run of
decimal digits and ignore whatever follows it.  No digit gives
`std::invalid_argument`; a magnitude above `ULONG_MAX` gives
`std::out_of_range`; a leading minus negates the value modulo `2 ^ 64`. -/
def stoul (str : String) : Except StoulError Nat :=
  let s := str.data.dropWhile isspace
  let negative := s.head? = some '-'
  let s := skipSign s
  let digits := s.takeWhile Char.isDigit
  if digits = [] then .error .invalid_argument
  else
    let value := digits.foldl (fun acc d => 10 * acc + (d.toNat - 48)) 0
    if value > ULONG_MAX then .error .out_of_range
    else .ok (if negative then (2 ^ 64 - value) % 2 ^ 64 else value)

/-- Unchecked element access `v[i]`; `none` marks an access outside the vector. -/
def index (v : List String) (i : Nat) : Option String := v[i]?

/-! ## `processCommandLine` (MPAGSCipher/ProcessCommandLine.cpp) -/

/-- State in which the scanning loop is left: the caller's settings object as
mutated so far, the local `nExpectedCiphers`, and the exception in flight if the
loop was left by a `throw` (`none` when it ended normally or by `break`). -/
structure LoopExit where
  settings : ProgramSettings
  nExpectedCiphers : Nat
  thrown : Option Exception
  deriving DecidableEq, Repr

/-- The loop `for (std::size_t i{1}; i < nCmdLineArgs; ++i)` of lines 21-119,
entered with loop variable `i`.  A branch that consumes a value performs its own
`++i` before the loop's increment, hence `i + 1 + 1`.  The two `reserve` calls
of lines 58-59 are not represented: in the program they throw
`std::length_error` when the count exceeds `max_size()` (as for
`--multi-cipher -1`), whereas here the scan goes on with that count. -/
def processLoop (cmdLineArgs : List String) (i : Nat) (settings : ProgramSettings)
    (nExpectedCiphers : Nat) : LoopExit :=
  let nCmdLineArgs := cmdLineArgs.length
  if _h : i < nCmdLineArgs then
    match index cmdLineArgs i with
    | none => ⟨settings, nExpectedCiphers, some .OutOfBounds⟩
    | some arg =>
      if arg = "-h" ∨ arg = "--help" then
        ⟨{ settings with helpRequested := true }, nExpectedCiphers, none⟩
      else if arg = "--version" then
        ⟨{ settings with versionRequested := true }, nExpectedCiphers, none⟩
      else if arg = "--multi-cipher" then
        if i = nCmdLineArgs - 1 then
          ⟨settings, nExpectedCiphers,
            some (.MissingArgument "--multi-cipher requires a positive integer argument")⟩
        else
          match index cmdLineArgs (i + 1) with
          | none => ⟨settings, nExpectedCiphers, some .OutOfBounds⟩
          | some arg =>
            if arg.isEmpty then
              ⟨settings, nExpectedCiphers,
                some (.MissingArgument "--multi-cipher requires a positive integer argument")⟩
            else
              match stoul arg with
              | .error _ =>
                ⟨settings, nExpectedCiphers,
                  some (.InvalidArgument "--multi-cipher requires a positive integer argument")⟩
              | .ok value => processLoop cmdLineArgs (i + 1 + 1) settings value
      else if arg = "-i" then
        if i = nCmdLineArgs - 1 then
          ⟨settings, nExpectedCiphers, some (.MissingArgument "-i requires a filename argument")⟩
        else
          match index cmdLineArgs (i + 1) with
          | none => ⟨settings, nExpectedCiphers, some .OutOfBounds⟩
          | some file =>
            processLoop cmdLineArgs (i + 1 + 1) { settings with inputFile := file }
              nExpectedCiphers
      else if arg = "-o" then
        if i = nCmdLineArgs - 1 then
          ⟨settings, nExpectedCiphers, some (.MissingArgument "-o requires a filename argument")⟩
        else
          match index cmdLineArgs (i + 1) with
          | none => ⟨settings, nExpectedCiphers, some .OutOfBounds⟩
          | some file =>
            processLoop cmdLineArgs (i + 1 + 1) { settings with outputFile := file }
              nExpectedCiphers
      else if arg = "-k" then
        if i = nCmdLineArgs - 1 then
          ⟨settings, nExpectedCiphers,
            some (.MissingArgument "-k requires a positive integer argument")⟩
        else
          match index cmdLineArgs (i + 1) with
          | none => ⟨settings, nExpectedCiphers, some .OutOfBounds⟩
          | some key =>
            processLoop cmdLineArgs (i + 1 + 1)
              { settings with cipherKey := settings.cipherKey ++ [key] } nExpectedCiphers
      else if arg = "--encrypt" then
        processLoop cmdLineArgs (i + 1) { settings with cipherMode := CipherMode.Encrypt }
          nExpectedCiphers
      else if arg = "--decrypt" then
        processLoop cmdLineArgs (i + 1) { settings with cipherMode := CipherMode.Decrypt }
          nExpectedCiphers
      else if arg = "-c" then
        if i = nCmdLineArgs - 1 then
          ⟨settings, nExpectedCiphers, some (.MissingArgument "-c requires a string argument")⟩
        else
          match index cmdLineArgs (i + 1) with
          | none => ⟨settings, nExpectedCiphers, some .OutOfBounds⟩
          | some name =>
            if name = "caesar" then
              processLoop cmdLineArgs (i + 1 + 1)
                { settings with cipherType := settings.cipherType ++ [CipherType.Caesar] }
                nExpectedCiphers
            else if name = "playfair" then
              processLoop cmdLineArgs (i + 1 + 1)
                { settings with cipherType := settings.cipherType ++ [CipherType.Playfair] }
                nExpectedCiphers
            else if name = "vigenere" then
              processLoop cmdLineArgs (i + 1 + 1)
                { settings with cipherType := settings.cipherType ++ [CipherType.Vigenere] }
                nExpectedCiphers
            else
              ⟨settings, nExpectedCiphers,
                some (.InvalidArgument ("unknown cipher \x27" ++ name ++ "\x27"))⟩
      else
        ⟨settings, nExpectedCiphers,
          some (.InvalidArgument ("unknown argument \x27" ++ arg ++ "\x27"))⟩
  else
    ⟨settings, nExpectedCiphers, none⟩
termination_by cmdLineArgs.length - i
decreasing_by all_goals simp_wf; all_goals omega

/-- How a call of `processCommandLine` completes: it returns a `bool` or it
throws. -/
inductive Completion where
  | returned (value : Bool)
  | threw (e : Exception)
  deriving DecidableEq, Repr

/-- What a call of `processCommandLine` leaves behind: the caller's settings
object (passed by reference, so mutated even when the call throws) and how the
call completed. -/
structure CallResult where
  settings : ProgramSettings
  completion : Completion
  deriving DecidableEq, Repr

/-- Lines 121-140, run on the state in which the loop was left.  When the loop
threw, the exception propagates and nothing here is executed.  Otherwise the
single-cipher defaults are added, the counts are compared with
`nExpectedCiphers`, and the function ends with `return 0`, which is `false` as a
`bool`. -/
def afterLoop (loopExit : LoopExit) : CallResult :=
  match loopExit.thrown with
  | some e => ⟨loopExit.settings, .threw e⟩
  | none =>
    let nExpectedCiphers := loopExit.nExpectedCiphers
    let settings := loopExit.settings
    let settings :=
      if nExpectedCiphers = 1 then
        let settings :=
          if settings.cipherType.isEmpty then
            { settings with cipherType := settings.cipherType ++ [CipherType.Caesar] }
          else settings
        if settings.cipherKey.isEmpty then
          { settings with cipherKey := settings.cipherKey ++ [""] }
        else settings
      else settings
    let nTypes := settings.cipherType.length
    let nKeys := settings.cipherKey.length
    if nTypes ≠ nExpectedCiphers ∨ nKeys ≠ nExpectedCiphers then
      ⟨settings, .threw (.InvalidArgument
        ("expected types and keys for " ++ toString nExpectedCiphers ++ " ciphers\n"
          ++ "        but received " ++ toString nTypes ++ " types and "
          ++ toString nKeys ++ " keys"))⟩
    else
      ⟨settings, .returned false⟩

/-- Function `processCommandLine(cmdLineArgs, settings)`: the local
`nExpectedCiphers{1}`, the loop from `i{1}`, then lines 121-140. -/
def processCommandLine (cmdLineArgs : List String) (settings : ProgramSettings) : CallResult :=
  afterLoop (processLoop cmdLineArgs 1 settings 1)

/-! ## A structural presentation of the loop

`scan` runs the same branches as `processLoop`, but by recursion on the list of
tokens not yet scanned instead of an index into the vector.  It is only a proof
device: `processLoop_eq_scan` shows that the loop computes exactly `scan` on
the tokens from index `i` on. -/

/-- The loop of `processCommandLine` as a recursion on the unscanned tokens. -/
def scan : List String → ProgramSettings → Nat → LoopExit
  | [], settings, nExpectedCiphers => ⟨settings, nExpectedCiphers, none⟩
  | arg :: rest, settings, nExpectedCiphers =>
    if arg = "-h" ∨ arg = "--help" then
      ⟨{ settings with helpRequested := true }, nExpectedCiphers, none⟩
    else if arg = "--version" then
      ⟨{ settings with versionRequested := true }, nExpectedCiphers, none⟩
    else if arg = "--multi-cipher" then
      match rest with
      | [] =>
        ⟨settings, nExpectedCiphers,
          some (.MissingArgument "--multi-cipher requires a positive integer argument")⟩
      | value :: rest =>
        if value.isEmpty then
          ⟨settings, nExpectedCiphers,
            some (.MissingArgument "--multi-cipher requires a positive integer argument")⟩
        else
          match stoul value with
          | .error _ =>
            ⟨settings, nExpectedCiphers,
              some (.InvalidArgument "--multi-cipher requires a positive integer argument")⟩
          | .ok n => scan rest settings n
    else if arg = "-i" then
      match rest with
      | [] =>
        ⟨settings, nExpectedCiphers, some (.MissingArgument "-i requires a filename argument")⟩
      | file :: rest => scan rest { settings with inputFile := file } nExpectedCiphers
    else if arg = "-o" then
      match rest with
      | [] =>
        ⟨settings, nExpectedCiphers, some (.MissingArgument "-o requires a filename argument")⟩
      | file :: rest => scan rest { settings with outputFile := file } nExpectedCiphers
    else if arg = "-k" then
      match rest with
      | [] =>
        ⟨settings, nExpectedCiphers,
          some (.MissingArgument "-k requires a positive integer argument")⟩
      | key :: rest =>
        scan rest { settings with cipherKey := settings.cipherKey ++ [key] } nExpectedCiphers
    else if arg = "--encrypt" then
      scan rest { settings with cipherMode := CipherMode.Encrypt } nExpectedCiphers
    else if arg = "--decrypt" then
      scan rest { settings with cipherMode := CipherMode.Decrypt } nExpectedCiphers
    else if arg = "-c" then
      match rest with
      | [] =>
        ⟨settings, nExpectedCiphers, some (.MissingArgument "-c requires a string argument")⟩
      | name :: rest =>
        if name = "caesar" then
          scan rest { settings with cipherType := settings.cipherType ++ [CipherType.Caesar] }
            nExpectedCiphers
        else if name = "playfair" then
          scan rest { settings with cipherType := settings.cipherType ++ [CipherType.Playfair] }
            nExpectedCiphers
        else if name = "vigenere" then
          scan rest { settings with cipherType := settings.cipherType ++ [CipherType.Vigenere] }
            nExpectedCiphers
        else
          ⟨settings, nExpectedCiphers,
            some (.InvalidArgument ("unknown cipher \x27" ++ name ++ "\x27"))⟩
    else
      ⟨settings, nExpectedCiphers,
        some (.InvalidArgument ("unknown argument \x27" ++ arg ++ "\x27"))⟩

/-! ## Definitions used to state the properties of the pipeline -/

namespace main

/-- The characters `[partSize * i, partSize * i + partSize)` of the text. -/
def piece (cipherText : String) (i : Nat) : String :=
  ⟨(cipherText.data.drop (partSize cipherText * i)).take (partSize cipherText)⟩

/-- Specification of the ordered application, in the words of the design: the
whole cipher sequence applied to one chunk, one cipher after another, in the
order `T` for Encrypt (the first cipher of `T` innermost) and in the exact reverse
of `T` for Decrypt (the last cipher of `T` innermost). -/
def applySequence (T : List Cipher) (mode : CipherMode) (chunk : String) : String :=
  match mode with
  | CipherMode.Encrypt => T.foldl (fun text c => c.applyCipher text CipherMode.Encrypt) chunk
  | CipherMode.Decrypt => T.foldr (fun c text => c.applyCipher text CipherMode.Decrypt) chunk

end main

/-- A cipher that leaves every text unchanged in both modes (a Caesar shift by
zero). -/
def identityCipher : Cipher := ⟨fun text _ => text⟩

/-- A cipher whose encryption appends a padding character `x` to every text that
starts with `a`, and whose decryption removes the last character of every text
that starts with `a`; other texts are unchanged.  Decryption undoes encryption
on every text, but the length of the cipher text depends on the plain text. -/
def paddingCipher : Cipher :=
  ⟨fun text mode =>
    match mode with
    | CipherMode.Encrypt => if text.data.head? = some 'a' then ⟨text.data ++ ['x']⟩ else text
    | CipherMode.Decrypt => if text.data.head? = some 'a' then ⟨text.data.dropLast⟩ else text⟩

/-- A cipher whose encryption appends `x` to every text and whose decryption
removes the last character. -/
def suffixCipher : Cipher :=
  ⟨fun text mode =>
    match mode with
    | CipherMode.Encrypt => ⟨text.data ++ ['x']⟩
    | CipherMode.Decrypt => ⟨text.data.dropLast⟩⟩

/-! ## Definitions used to state the properties of the parser -/

/-- Specification of the expected cipher count, in the words of the design: the
value given to the last `--multi-cipher` processed, or the current default when
none was processed.  The walk is over the tokens in flag position: `-h`,
`--help` and `--version` end it, a flag that takes a value is skipped together
with its value, any other token is skipped alone. -/
def lastMultiCipher : List String → Nat → Nat
  | [], current => current
  | flag :: rest, current =>
    if flag = "-h" ∨ flag = "--help" ∨ flag = "--version" then current
    else if flag = "--multi-cipher" then
      match rest with
      | [] => current
      | value :: rest =>
        match stoul value with
        | .ok n => lastMultiCipher rest n
        | .error _ => current
    else if flag = "-i" ∨ flag = "-o" ∨ flag = "-k" ∨ flag = "-c" then
      match rest with
      | [] => current
      | _ :: rest => lastMultiCipher rest current
    else lastMultiCipher rest current

/-- The expected cipher count of a command line: `lastMultiCipher` over the
tokens after the program name, with the default 1. -/
def expectedCount (cmdLineArgs : List String) : Nat :=
  lastMultiCipher cmdLineArgs.tail 1

/-- The name by which `-c` selects a cipher kind. -/
def cipherName : CipherType → String
  | CipherType.Caesar => "caesar"
  | CipherType.Playfair => "playfair"
  | CipherType.Vigenere => "vigenere"

/-- The tokens `-c name_1 -k key_1 ... -c name_n -k key_n` of a list of
(kind, key) pairs. -/
def pairTokens : List (CipherType × String) → List String
  | [] => []
  | (kind, key) :: rest => "-c" :: cipherName kind :: "-k" :: key :: pairTokens rest

/-- The configuration with one more indicator set: the help flag for `-h` and
`--help`, the version flag for `--version`. -/
def setIndicator (flag : String) (settings : ProgramSettings) : ProgramSettings :=
  if flag = "--version" then { settings with versionRequested := true }
  else { settings with helpRequested := true }

/-- Specification of the defaulting, in the words of the design: when the
expected cipher count is exactly 1, a missing cipher kind defaults to Caesar and
a missing key defaults to the empty key; otherwise nothing is added. -/
def withDefaults (settings : ProgramSettings) (nExpectedCiphers : Nat) : ProgramSettings :=
  { settings with
    cipherType :=
      if nExpectedCiphers = 1 ∧ settings.cipherType = [] then [CipherType.Caesar]
      else settings.cipherType
    cipherKey :=
      if nExpectedCiphers = 1 ∧ settings.cipherKey = [] then [""]
      else settings.cipherKey }

/-- Specification of the input source and the output sink, in the words of the
design: the token following the last `flag` (`-i` or `-o`) processed as a flag,
or the current value when none was processed.  The walk is the one of
`lastMultiCipher`: `-h`, `--help` and `--version` end it, a flag that takes a
value is skipped together with its value, any other token is skipped alone. -/
def lastValueOf (flag : String) : List String → String → String
  | [], current => current
  | token :: rest, current =>
    if token = "-h" ∨ token = "--help" ∨ token = "--version" then current
    else if token = "--multi-cipher" ∨ token = "-i" ∨ token = "-o" ∨ token = "-k" ∨
        token = "-c" then
      match rest with
      | [] => current
      | value :: rest => lastValueOf flag rest (if token = flag then value else current)
    else lastValueOf flag rest current

/-- Specification of the mode, in the words of the design: the mode of the last
`--encrypt` or `--decrypt` processed as a flag, or the current mode when none
was processed. -/
def lastMode : List String → CipherMode → CipherMode
  | [], current => current
  | token :: rest, current =>
    if token = "-h" ∨ token = "--help" ∨ token = "--version" then current
    else if token = "--multi-cipher" ∨ token = "-i" ∨ token = "-o" ∨ token = "-k" ∨
        token = "-c" then
      match rest with
      | [] => current
      | _ :: rest => lastMode rest current
    else if token = "--encrypt" then lastMode rest CipherMode.Encrypt
    else if token = "--decrypt" then lastMode rest CipherMode.Decrypt
    else lastMode rest current

/-! ## The whole of `main` (mpags-cipher.cpp) -/

/-- How the process ends: `main` returns an exit status; or an exception leaves
`main` uncaught, `std::terminate` is called and the process is aborted; or an
unchecked access outside a vector was made. -/
inductive ProcessEnd where
  | exit (status : Nat)
  | terminate
  | undefinedBehaviour
  deriving DecidableEq, Repr

/-- The collaborators of `main` that are outside this repository's core:
`readFile name` is the content of the named input file after `transformChar`
(`none` when the stream is not good), `readStdin` the content of standard input
after `transformChar`, `makeCipher` is `CipherFactory::makeCipher` (a cipher, a
null pointer, or an exception), and `canWrite name` tells whether an output
stream on the named file is good. -/
structure Environment where
  readFile : String → Option String
  readStdin : String
  makeCipher : CipherType → String → Except Exception (Option Cipher)
  canWrite : String → Bool

/-- What a run of `main` does: how the process ends, whether the input was read,
and the processed text written to the output file or to the screen. -/
structure MainResult where
  ending : ProcessEnd
  inputRead : Bool
  written : Option String
  deriving DecidableEq, Repr

/-- The loop of lines 99-109: for each index below `nCiphers` make the cipher of
`cipherType[iCipher]` and `cipherKey[iCipher]` and push it; a null pointer ends
`main` with status 1, an exception of the factory is not caught. -/
def makeCiphers (env : Environment) (settings : ProgramSettings) :
    Except ProcessEnd (List Cipher) :=
  (List.range settings.cipherType.length).foldlM
    (fun ciphers iCipher =>
      match settings.cipherType[iCipher]?, settings.cipherKey[iCipher]? with
      | some kind, some key =>
        match env.makeCipher kind key with
        | .error _ => .error ProcessEnd.terminate
        | .ok none => .error (ProcessEnd.exit 1)
        | .ok (some cipher) => .ok (ciphers ++ [cipher])
      | _, _ => .error ProcessEnd.undefinedBehaviour)
    []

/-- Function `main(argc, argv)` with `cmdLineArgs{argv, argv + argc}`.  Only
`MissingArgument` is caught around `processCommandLine` (line 27); any other
exception leaves `main`. -/
def main (cmdLineArgs : List String) (env : Environment) : MainResult :=
  let call := processCommandLine cmdLineArgs emptySettings
  let settings := call.settings
  match call.completion with
  | .threw (.MissingArgument _) => ⟨ProcessEnd.exit 1, false, none⟩
  | .threw .OutOfBounds => ⟨ProcessEnd.undefinedBehaviour, false, none⟩
  | .threw _ => ⟨ProcessEnd.terminate, false, none⟩
  | .returned _ =>
    if settings.helpRequested then ⟨ProcessEnd.exit 0, false, none⟩
    else if settings.versionRequested then ⟨ProcessEnd.exit 0, false, none⟩
    else
      let input :=
        if settings.inputFile ≠ "" then env.readFile settings.inputFile
        else some env.readStdin
      match input with
      | none => ⟨ProcessEnd.exit 1, false, none⟩
      | some cipherText =>
        match makeCiphers env settings with
        | .error ending => ⟨ending, true, none⟩
        | .ok ciphers =>
          match main.runCiphers ciphers settings.cipherMode cipherText with
          | none => ⟨ProcessEnd.terminate, true, none⟩
          | some cipherText =>
            if settings.outputFile ≠ "" then
              if env.canWrite settings.outputFile then ⟨ProcessEnd.exit 0, true, some cipherText⟩
              else ⟨ProcessEnd.exit 1, true, none⟩
            else ⟨ProcessEnd.exit 0, true, some cipherText⟩

/-- A cipher acts character by character when its output is its input with one
fixed map per mode applied to every character, independent of position and of
the neighbouring characters. -/
def IsCharwise (c : Cipher) : Prop :=
  ∃ f : CipherMode → Char → Char,
    ∀ (text : String) (mode : CipherMode), c.applyCipher text mode = ⟨text.data.map (f mode)⟩

/-- The cipher that applies the character map `f mode` to every character. -/
def charwiseCipher (f : CipherMode → Char → Char) : Cipher :=
  ⟨fun text mode => ⟨text.data.map (f mode)⟩⟩

/-- A character-wise cipher: every letter is replaced by its upper-case form, in
both modes. -/
def upperCipher : Cipher := charwiseCipher (fun _ c => c.toUpper)

/-! ## One iteration of the loop, and the loop as a bounded iteration -/

/-- How one iteration of the loop ends: the loop goes on with the index `i`
(after the loop's own `++i`), or it is left (normally, by `break` or by a
`throw`) in the given state. -/
inductive LoopStep where
  | next (i : Nat) (settings : ProgramSettings) (nExpectedCiphers : Nat)
  | leave (loopExit : LoopExit)
  deriving DecidableEq, Repr

/-- The body of the loop of lines 21-119 at loop variable `i`: the same branches
as in `processLoop`, with the next iteration returned instead of run. -/
def loopBody (cmdLineArgs : List String) (i : Nat) (settings : ProgramSettings)
    (nExpectedCiphers : Nat) : LoopStep :=
  let nCmdLineArgs := cmdLineArgs.length
  match index cmdLineArgs i with
  | none => .leave ⟨settings, nExpectedCiphers, some .OutOfBounds⟩
  | some arg =>
    if arg = "-h" ∨ arg = "--help" then
      .leave ⟨{ settings with helpRequested := true }, nExpectedCiphers, none⟩
    else if arg = "--version" then
      .leave ⟨{ settings with versionRequested := true }, nExpectedCiphers, none⟩
    else if arg = "--multi-cipher" then
      if i = nCmdLineArgs - 1 then
        .leave ⟨settings, nExpectedCiphers,
          some (.MissingArgument "--multi-cipher requires a positive integer argument")⟩
      else
        match index cmdLineArgs (i + 1) with
        | none => .leave ⟨settings, nExpectedCiphers, some .OutOfBounds⟩
        | some arg =>
          if arg.isEmpty then
            .leave ⟨settings, nExpectedCiphers,
              some (.MissingArgument "--multi-cipher requires a positive integer argument")⟩
          else
            match stoul arg with
            | .error _ =>
              .leave ⟨settings, nExpectedCiphers,
                some (.InvalidArgument "--multi-cipher requires a positive integer argument")⟩
            | .ok value => .next (i + 1 + 1) settings value
    else if arg = "-i" then
      if i = nCmdLineArgs - 1 then
        .leave ⟨settings, nExpectedCiphers,
          some (.MissingArgument "-i requires a filename argument")⟩
      else
        match index cmdLineArgs (i + 1) with
        | none => .leave ⟨settings, nExpectedCiphers, some .OutOfBounds⟩
        | some file => .next (i + 1 + 1) { settings with inputFile := file } nExpectedCiphers
    else if arg = "-o" then
      if i = nCmdLineArgs - 1 then
        .leave ⟨settings, nExpectedCiphers,
          some (.MissingArgument "-o requires a filename argument")⟩
      else
        match index cmdLineArgs (i + 1) with
        | none => .leave ⟨settings, nExpectedCiphers, some .OutOfBounds⟩
        | some file => .next (i + 1 + 1) { settings with outputFile := file } nExpectedCiphers
    else if arg = "-k" then
      if i = nCmdLineArgs - 1 then
        .leave ⟨settings, nExpectedCiphers,
          some (.MissingArgument "-k requires a positive integer argument")⟩
      else
        match index cmdLineArgs (i + 1) with
        | none => .leave ⟨settings, nExpectedCiphers, some .OutOfBounds⟩
        | some key =>
          .next (i + 1 + 1) { settings with cipherKey := settings.cipherKey ++ [key] }
            nExpectedCiphers
    else if arg = "--encrypt" then
      .next (i + 1) { settings with cipherMode := CipherMode.Encrypt } nExpectedCiphers
    else if arg = "--decrypt" then
      .next (i + 1) { settings with cipherMode := CipherMode.Decrypt } nExpectedCiphers
    else if arg = "-c" then
      if i = nCmdLineArgs - 1 then
        .leave ⟨settings, nExpectedCiphers,
          some (.MissingArgument "-c requires a string argument")⟩
      else
        match index cmdLineArgs (i + 1) with
        | none => .leave ⟨settings, nExpectedCiphers, some .OutOfBounds⟩
        | some name =>
          if name = "caesar" then
            .next (i + 1 + 1)
              { settings with cipherType := settings.cipherType ++ [CipherType.Caesar] }
              nExpectedCiphers
          else if name = "playfair" then
            .next (i + 1 + 1)
              { settings with cipherType := settings.cipherType ++ [CipherType.Playfair] }
              nExpectedCiphers
          else if name = "vigenere" then
            .next (i + 1 + 1)
              { settings with cipherType := settings.cipherType ++ [CipherType.Vigenere] }
              nExpectedCiphers
          else
            .leave ⟨settings, nExpectedCiphers,
              some (.InvalidArgument ("unknown cipher \x27" ++ name ++ "\x27"))⟩
    else
      .leave ⟨settings, nExpectedCiphers,
        some (.InvalidArgument ("unknown argument \x27" ++ arg ++ "\x27"))⟩

/-- The loop run for at most `fuel` iterations from loop variable `i`: `none`
when the iterations allowed are used up before the loop is left. -/
def runLoop (cmdLineArgs : List String) :
    Nat → Nat → ProgramSettings → Nat → Option LoopExit
  | 0, i, settings, nExpectedCiphers =>
    if i < cmdLineArgs.length then none else some ⟨settings, nExpectedCiphers, none⟩
  | fuel + 1, i, settings, nExpectedCiphers =>
    if i < cmdLineArgs.length then
      match loopBody cmdLineArgs i settings nExpectedCiphers with
      | .next i settings nExpectedCiphers => runLoop cmdLineArgs fuel i settings nExpectedCiphers
      | .leave loopExit => some loopExit
    else some ⟨settings, nExpectedCiphers, none⟩

/-- What follows one iteration: the loop from the next index, or the state in
which the loop was left. -/
def continueLoop (cmdLineArgs : List String) : LoopStep → LoopExit
  | .next i settings nExpectedCiphers => processLoop cmdLineArgs i settings nExpectedCiphers
  | .leave loopExit => loopExit

/-- The index at which the loop goes on after an iteration, if it does. -/
def nextIndex : LoopStep → Option Nat
  | .next i _ _ => some i
  | .leave _ => none

/-! ## The loop and its structural presentation agree -/

theorem index_append_length (pre : List String) (arg : String) (rest : List String) :
    index (pre ++ arg :: rest) pre.length = some arg := by
  induction pre with
  | nil => simp [index]
  | cons x xs ih => simpa [index] using ih

theorem index_append_length_succ (pre : List String) (arg value : String)
    (rest : List String) :
    index (pre ++ arg :: value :: rest) (pre.length + 1) = some value := by
  have h : pre ++ arg :: value :: rest = (pre ++ [arg]) ++ value :: rest := by simp
  have hl : pre.length + 1 = (pre ++ [arg]).length := by simp
  rw [h, hl]
  exact index_append_length _ _ _

theorem processLoop_append_aux (k : Nat) :
    ∀ (l : List String), l.length ≤ k →
      ∀ (pre : List String) (settings : ProgramSettings) (n : Nat),
        processLoop (pre ++ l) pre.length settings n = scan l settings n := by
  induction k with
  | zero =>
    intro l hl pre settings n
    have : l = [] := List.eq_nil_of_length_eq_zero (Nat.le_zero.mp hl)
    subst this
    rw [processLoop]
    simp [scan]
  | succ k ih =>
    intro l hl pre settings n
    cases l with
    | nil =>
      rw [processLoop]
      simp [scan]
    | cons arg rest =>
      have hlt : pre.length < (pre ++ arg :: rest).length := by simp
      have hrest : rest.length ≤ k := by simpa using hl
      have step1 : ∀ (s : ProgramSettings) (m : Nat),
          processLoop (pre ++ arg :: rest) (pre.length + 1) s m = scan rest s m := by
        intro s m
        have h := ih rest hrest (pre ++ [arg]) s m
        simpa using h
      rw [processLoop]
      simp only [hlt, dite_true, index_append_length]
      cases rest with
      | nil =>
        have hlast : pre.length = (pre ++ [arg]).length - 1 := by simp
        simp only [scan, ← hlast, if_true, step1]
      | cons value rest =>
        have hnot : ¬ pre.length = (pre ++ arg :: value :: rest).length - 1 := by
          simp
        have hrest2 : rest.length ≤ k := by
          simp at hrest; omega
        have step2 : ∀ (s : ProgramSettings) (m : Nat),
            processLoop (pre ++ arg :: value :: rest) (pre.length + 1 + 1) s m
              = scan rest s m := by
          intro s m
          have h := ih rest hrest2 (pre ++ [arg, value]) s m
          simpa using h
        simp only [scan, hnot, if_false, index_append_length_succ, step1, step2]

/-- Scanning from index `pre.length` of `pre ++ l` is `scan l`. -/
theorem processLoop_append (pre l : List String) (settings : ProgramSettings) (n : Nat) :
    processLoop (pre ++ l) pre.length settings n = scan l settings n :=
  processLoop_append_aux l.length l (Nat.le_refl _) pre settings n

/-! ## The chunking of `main` -/

namespace main

theorem range_numThreads : List.range numThreads = [0, 1, 2, 3] := by decide

/-- No size computed for a chunk exceeds the length of the text, so the
`std::size_t` arithmetic of lines 124-130 cannot wrap around. -/
theorem chunk_in_range (cipherText : String) (i : Nat) (hi : i < numThreads) :
    start cipherText i + partSize cipherText ≤ cipherText.length := by
  unfold start partSize numThreads at *
  interval_cases i <;> omega

/-- The guard `start + partSize > length` never holds: every chunk has exactly
`partSize` characters and starts at `partSize * i`. -/
theorem chunk_eq (cipherText : String) (i : Nat) (hi : i < numThreads) :
    chunk cipherText i
      = some ⟨(cipherText.data.drop (partSize cipherText * i)).take (partSize cipherText)⟩ := by
  have h := chunk_in_range cipherText i hi
  have h1 : ¬ start cipherText i + partSize cipherText > cipherText.length := by omega
  have h2 : ¬ start cipherText i > cipherText.length := by omega
  simp only [chunk, substr, currentPartSize, h1, h2, if_false]
  rfl

theorem chunks_eq (cipherText : String) :
    chunks cipherText
      = some [piece cipherText 0, piece cipherText 1, piece cipherText 2, piece cipherText 3] := by
  have h0 := chunk_eq cipherText 0 (by decide)
  have h1 := chunk_eq cipherText 1 (by decide)
  have h2 := chunk_eq cipherText 2 (by decide)
  have h3 := chunk_eq cipherText 3 (by decide)
  simp [chunks, range_numThreads, List.foldlM, h0, h1, h2, h3, piece]

theorem launch_eq (ciphers : List Cipher) (mode : CipherMode) (cipherText : String) :
    launch ciphers mode cipherText
      = some [worker ciphers mode (piece cipherText 0), worker ciphers mode (piece cipherText 1),
          worker ciphers mode (piece cipherText 2), worker ciphers mode (piece cipherText 3)] := by
  have h0 := chunk_eq cipherText 0 (by decide)
  have h1 := chunk_eq cipherText 1 (by decide)
  have h2 := chunk_eq cipherText 2 (by decide)
  have h3 := chunk_eq cipherText 3 (by decide)
  simp [launch, range_numThreads, List.foldlM, h0, h1, h2, h3, piece]

end main

/-! ## Pieces of a text made of four blocks of equal length -/

theorem piece_append_four (a b c d : List Char) (q : Nat) (ha : a.length = q)
    (hb : b.length = q) (hc : c.length = q) (hd : d.length = q) :
    ((a ++ b ++ c ++ d).drop (q * 0)).take q = a ∧
    ((a ++ b ++ c ++ d).drop (q * 1)).take q = b ∧
    ((a ++ b ++ c ++ d).drop (q * 2)).take q = c ∧
    ((a ++ b ++ c ++ d).drop (q * 3)).take q = d := by
  subst ha
  refine ⟨?_, ?_, ?_, ?_⟩
  · simp [List.append_assoc, List.take_append_of_le_length]
  · simp [List.append_assoc, List.take_append_of_le_length, hb]
  · have h2 : a.length * 2 = (a ++ b).length := by simp [hb]; omega
    rw [h2, List.append_assoc (a ++ b), List.drop_left]
    simp [List.take_append_of_le_length, hc]
  · have h3 : a.length * 3 = (a ++ b ++ c).length := by simp [hb, hc]; omega
    rw [h3, List.drop_left]
    simp [hd]

namespace main

theorem partSize_of_four (a b c d : String) (q : Nat) (ha : a.length = q)
    (hb : b.length = q) (hc : c.length = q) (hd : d.length = q) :
    partSize (a ++ b ++ c ++ d) = q := by
  simp [partSize, numThreads, String.length_append, ha, hb, hc, hd]
  omega

theorem piece_of_four (a b c d : String) (q : Nat) (ha : a.length = q)
    (hb : b.length = q) (hc : c.length = q) (hd : d.length = q) :
    piece (a ++ b ++ c ++ d) 0 = a ∧ piece (a ++ b ++ c ++ d) 1 = b ∧
    piece (a ++ b ++ c ++ d) 2 = c ∧ piece (a ++ b ++ c ++ d) 3 = d := by
  have hp := partSize_of_four a b c d q ha hb hc hd
  have h := piece_append_four a.data b.data c.data d.data q ha hb hc hd
  simp only [piece, hp, String.data_append]
  obtain ⟨h0, h1, h2, h3⟩ := h
  rw [h0, h1, h2, h3]
  exact ⟨rfl, rfl, rfl, rfl⟩

end main

/-! ## A text whose length is a multiple of four is the sum of its pieces -/

theorem four_pieces_cover (l : List Char) (p : Nat) (hl : l.length = 4 * p) :
    (l.drop (p * 0)).take p ++ (l.drop (p * 1)).take p ++ (l.drop (p * 2)).take p
      ++ (l.drop (p * 3)).take p = l := by
  have h3 : (l.drop (p * 3)).take p = l.drop (p * 3) := by
    apply List.take_of_length_le
    simp [hl]; omega
  have e1 : l.drop (p * 1) = (l.drop (p * 0)).drop p := by simp
  have e2 : l.drop (p * 2) = (l.drop (p * 1)).drop p := by
    rw [List.drop_drop]; congr 1
  have e3 : l.drop (p * 3) = (l.drop (p * 2)).drop p := by
    rw [List.drop_drop]; congr 1
  rw [h3, List.append_assoc, List.append_assoc]
  rw [e3, List.take_append_drop, e2, List.take_append_drop, e1, List.take_append_drop]
  simp

theorem four_pieces_length (l : List Char) (p i : Nat) (hl : l.length = 4 * p) (hi : i < 4) :
    ((l.drop (p * i)).take p).length = p := by
  simp [hl]
  interval_cases i <;> omega

namespace main

theorem partSize_of_dvd (cipherText : String) (h : 4 ∣ cipherText.length) :
    cipherText.length = 4 * partSize cipherText := by
  unfold partSize numThreads
  omega

theorem pieces_cover (cipherText : String) (h : 4 ∣ cipherText.length) :
    piece cipherText 0 ++ piece cipherText 1 ++ piece cipherText 2 ++ piece cipherText 3
      = cipherText := by
  have hl := partSize_of_dvd cipherText h
  have hc := four_pieces_cover cipherText.data (partSize cipherText) hl
  apply String.ext
  simp only [piece, String.data_append]
  exact hc

theorem piece_length (cipherText : String) (i : Nat) (h : 4 ∣ cipherText.length)
    (hi : i < 4) : (piece cipherText i).length = partSize cipherText :=
  four_pieces_length cipherText.data (partSize cipherText) i (partSize_of_dvd cipherText h) hi

/-! ## The worker -/

theorem worker_cons (c : Cipher) (ciphers : List Cipher) (mode : CipherMode) (text : String) :
    worker (c :: ciphers) mode text = worker ciphers mode (c.applyCipher text mode) := rfl

theorem worker_append_singleton (ciphers : List Cipher) (c : Cipher) (mode : CipherMode)
    (text : String) :
    worker (ciphers ++ [c]) mode text = c.applyCipher (worker ciphers mode text) mode := by
  simp [worker, List.foldl_append]

/-- Decrypting with the reversed sequence undoes encrypting with the sequence,
when every cipher of it is undone by its own decryption. -/
theorem worker_reverse_inverts (ciphers : List Cipher)
    (hinv : ∀ c ∈ ciphers, ∀ s : String,
      c.applyCipher (c.applyCipher s CipherMode.Encrypt) CipherMode.Decrypt = s)
    (text : String) :
    worker ciphers.reverse CipherMode.Decrypt (worker ciphers CipherMode.Encrypt text) = text := by
  induction ciphers generalizing text with
  | nil => rfl
  | cons c cs ih =>
    rw [List.reverse_cons, worker_append_singleton, worker_cons,
      ih (fun c' hc' => hinv c' (List.mem_cons_of_mem _ hc'))]
    exact hinv c (List.mem_cons_self _ _) text

/-- When the length of what each cipher produces depends only on the length of
what it is given, the same holds for the whole sequence. -/
theorem worker_length_congr (ciphers : List Cipher) (mode : CipherMode)
    (hlen : ∀ c ∈ ciphers, ∀ s t : String, s.length = t.length →
      (c.applyCipher s mode).length = (c.applyCipher t mode).length)
    (s t : String) (hst : s.length = t.length) :
    (worker ciphers mode s).length = (worker ciphers mode t).length := by
  induction ciphers generalizing s t with
  | nil => exact hst
  | cons c cs ih =>
    rw [worker_cons, worker_cons]
    exact ih (fun c' hc' => hlen c' (List.mem_cons_of_mem _ hc')) _ _
      (hlen c (List.mem_cons_self _ _) s t hst)

theorem gather_four (a b c d : String) : gather [a, b, c, d] = a ++ b ++ c ++ d := by
  simp [gather]

theorem runCiphers_eq (ciphers : List Cipher) (mode : CipherMode) (cipherText : String) :
    runCiphers ciphers mode cipherText
      = some (worker (if mode = CipherMode.Decrypt then ciphers.reverse else ciphers) mode
                (piece cipherText 0)
          ++ worker (if mode = CipherMode.Decrypt then ciphers.reverse else ciphers) mode
                (piece cipherText 1)
          ++ worker (if mode = CipherMode.Decrypt then ciphers.reverse else ciphers) mode
                (piece cipherText 2)
          ++ worker (if mode = CipherMode.Decrypt then ciphers.reverse else ciphers) mode
                (piece cipherText 3)) := by
  simp only [runCiphers, launch_eq, gather_four]

end main

/-! ## Properties of the pipeline -/

theorem paddingCipher_inverts (s : String) :
    paddingCipher.applyCipher (paddingCipher.applyCipher s CipherMode.Encrypt)
      CipherMode.Decrypt = s := by
  obtain ⟨l⟩ := s
  cases l with
  | nil => simp [paddingCipher]
  | cons x xs =>
    by_cases hx : x = 'a'
    · subst hx
      have hd : ('a' :: (xs ++ ['x'])).dropLast = 'a' :: xs := by
        rw [← List.cons_append, List.dropLast_concat]
      simp [paddingCipher, hd]
    · simp [paddingCipher, hx]

theorem suffixCipher_inverts (s : String) :
    suffixCipher.applyCipher (suffixCipher.applyCipher s CipherMode.Encrypt)
      CipherMode.Decrypt = s := by
  simp [suffixCipher]

theorem suffixCipher_length (s t : String) (h : s.length = t.length) :
    (suffixCipher.applyCipher s CipherMode.Encrypt).length
      = (suffixCipher.applyCipher t CipherMode.Encrypt).length := by
  have h2 : s.data.length = t.data.length := h
  show (s.data ++ ['x']).length = (t.data ++ ['x']).length
  simp [h2]

/-- C1 (defect of the code): the text `abcde` of length 5 is handed to the four
workers as the chunks `a`, `b`, `c`, `d`; their concatenation in chunk-index
order is `abcd`, so the last character reaches no worker and the chunks do not
reproduce the text. -/
theorem C1_chunks_lose_remainder :
    main.chunks "abcde" = some ["a", "b", "c", "d"] ∧
    String.join ["a", "b", "c", "d"] = "abcd" ∧
    String.join ["a", "b", "c", "d"] ≠ "abcde" := by
  decide

/-- C3: for every cipher sequence `T`, every mode and every text, the four
chunks exist and the output of the pipeline is the concatenation, in
chunk-index order, of `applySequence T mode` of each chunk: the ciphers of `T`
one after another, in the order `T` for Encrypt and in the reverse order for
Decrypt. -/
theorem C3_output_is_ordered_application (T : List Cipher) (mode : CipherMode)
    (text : String) :
    ∃ chunks : List String,
      main.chunks text = some chunks ∧ chunks.length = 4 ∧
      main.runCiphers T mode text
        = some (String.join (chunks.map (main.applySequence T mode))) := by
  refine ⟨_, main.chunks_eq text, rfl, ?_⟩
  rw [main.runCiphers_eq]
  cases mode with
  | Encrypt =>
    simp [main.applySequence, main.worker, String.join]
  | Decrypt =>
    simp [main.applySequence, main.worker, String.join, List.foldl_reverse]

/-- C2 as stated fails.  First part: the claim itself is false, shown by the
identity cipher and the text `abcde` (the Encrypt run returns `abcd`).  Second
part: it stays false for texts whose length is a multiple of four, shown by
`paddingCipher` and the text `abcd` (the Encrypt run returns `axbcd`, which the
Decrypt run cuts at other places and turns into `xbc`). -/
theorem C2_roundtrip_counterexample :
    (¬ ∀ (T : List Cipher),
        (∀ c ∈ T, ∀ s : String,
          c.applyCipher (c.applyCipher s CipherMode.Encrypt) CipherMode.Decrypt = s) →
        ∀ text : String,
          (main.runCiphers T CipherMode.Encrypt text).bind
            (main.runCiphers T CipherMode.Decrypt) = some text) ∧
    (¬ ∀ (T : List Cipher),
        (∀ c ∈ T, ∀ s : String,
          c.applyCipher (c.applyCipher s CipherMode.Encrypt) CipherMode.Decrypt = s) →
        ∀ text : String, 4 ∣ text.length →
          (main.runCiphers T CipherMode.Encrypt text).bind
            (main.runCiphers T CipherMode.Decrypt) = some text) := by
  constructor
  · intro h
    have h1 := h [identityCipher] (by simp [identityCipher]) "abcde"
    revert h1
    decide
  · intro h
    have h1 := h [paddingCipher]
      (by intro c hc s; rw [List.mem_singleton.mp hc]; exact paddingCipher_inverts s)
      "abcd" (by decide)
    revert h1
    decide

/-- C2 (amended): for every cipher sequence in which each cipher's Decrypt
application inverts its Encrypt application on every string and the length of
each cipher's Encrypt output depends only on the length of its input, and for
every text whose length is a multiple of four, the Encrypt run returns an
output and the Decrypt run on that output, with the same cipher sequence,
returns the original text. -/
theorem C2_roundtrip_aligned (T : List Cipher) (text : String)
    (hinv : ∀ c ∈ T, ∀ s : String,
      c.applyCipher (c.applyCipher s CipherMode.Encrypt) CipherMode.Decrypt = s)
    (hlen : ∀ c ∈ T, ∀ s t : String, s.length = t.length →
      (c.applyCipher s CipherMode.Encrypt).length = (c.applyCipher t CipherMode.Encrypt).length)
    (hdiv : 4 ∣ text.length) :
    ∃ out : String,
      main.runCiphers T CipherMode.Encrypt text = some out ∧
      main.runCiphers T CipherMode.Decrypt out = some text := by
  refine ⟨_, main.runCiphers_eq T CipherMode.Encrypt text, ?_⟩
  have hne : ¬ (CipherMode.Encrypt = CipherMode.Decrypt) := by decide
  simp only [hne, if_false]
  have l0 := main.piece_length text 0 hdiv (by decide)
  have l1 := main.piece_length text 1 hdiv (by decide)
  have l2 := main.piece_length text 2 hdiv (by decide)
  have l3 := main.piece_length text 3 hdiv (by decide)
  have w := main.worker_length_congr T CipherMode.Encrypt hlen
  have q1 := w (main.piece text 1) (main.piece text 0) (by rw [l1, l0])
  have q2 := w (main.piece text 2) (main.piece text 0) (by rw [l2, l0])
  have q3 := w (main.piece text 3) (main.piece text 0) (by rw [l3, l0])
  obtain ⟨p0, p1, p2, p3⟩ := main.piece_of_four _ _ _ _ _ rfl q1 q2 q3
  rw [main.runCiphers_eq, p0, p1, p2, p3]
  simp only [if_true]
  rw [main.worker_reverse_inverts T hinv, main.worker_reverse_inverts T hinv,
    main.worker_reverse_inverts T hinv, main.worker_reverse_inverts T hinv,
    main.pieces_cover text hdiv]

/-- C2 (amended), applied: with the one-cipher sequence `suffixCipher` and the
eight-character text `abcdefgh`, encrypting and then decrypting returns the
text. -/
theorem C2_roundtrip_aligned_witness :
    (∀ c ∈ [suffixCipher], ∀ s : String,
      c.applyCipher (c.applyCipher s CipherMode.Encrypt) CipherMode.Decrypt = s) ∧
    (∀ c ∈ [suffixCipher], ∀ s t : String, s.length = t.length →
      (c.applyCipher s CipherMode.Encrypt).length = (c.applyCipher t CipherMode.Encrypt).length) ∧
    4 ∣ "abcdefgh".length ∧
    ∃ out : String,
      main.runCiphers [suffixCipher] CipherMode.Encrypt "abcdefgh" = some out ∧
      main.runCiphers [suffixCipher] CipherMode.Decrypt out = some "abcdefgh" :=
  have hinv : ∀ c ∈ [suffixCipher], ∀ s : String,
      c.applyCipher (c.applyCipher s CipherMode.Encrypt) CipherMode.Decrypt = s := by
    intro c hc s; rw [List.mem_singleton.mp hc]; exact suffixCipher_inverts s
  have hlen : ∀ c ∈ [suffixCipher], ∀ s t : String, s.length = t.length →
      (c.applyCipher s CipherMode.Encrypt).length
        = (c.applyCipher t CipherMode.Encrypt).length := by
    intro c hc s t h; rw [List.mem_singleton.mp hc]; exact suffixCipher_length s t h
  ⟨hinv, hlen, by decide, C2_roundtrip_aligned [suffixCipher] "abcdefgh" hinv hlen (by decide)⟩

/-! ## Properties of the parser -/

/-- With a program name in front, the loop scans the remaining tokens. -/
theorem processLoop_cons (prog : String) (rest : List String) (settings : ProgramSettings)
    (n : Nat) : processLoop (prog :: rest) 1 settings n = scan rest settings n :=
  processLoop_append [prog] rest settings n

theorem processLoop_nil (settings : ProgramSettings) (n : Nat) :
    processLoop [] 1 settings n = ⟨settings, n, none⟩ := by
  rw [processLoop]; simp

theorem processCommandLine_cons (prog : String) (rest : List String)
    (settings : ProgramSettings) :
    processCommandLine (prog :: rest) settings = afterLoop (scan rest settings 1) := by
  rw [processCommandLine, processLoop_cons]

theorem scan_help (rest : List String) (s : ProgramSettings) (n : Nat) :
    scan ("--help" :: rest) s n = ⟨{ s with helpRequested := true }, n, none⟩ := by
  rw [scan.eq_def]
  simp

theorem scan_h (rest : List String) (s : ProgramSettings) (n : Nat) :
    scan ("-h" :: rest) s n = ⟨{ s with helpRequested := true }, n, none⟩ := by
  rw [scan.eq_def]
  simp

theorem scan_version (rest : List String) (s : ProgramSettings) (n : Nat) :
    scan ("--version" :: rest) s n = ⟨{ s with versionRequested := true }, n, none⟩ := by
  rw [scan.eq_def]
  simp

/-- C10: for every token list `rest`, parsing `[prog, --help] ++ rest` from the
empty configuration succeeds with the help flag set and yields exactly what
parsing `[prog, --help]` yields; likewise for `-h`, and for `--version` with the
version flag.  The tokens after the flag are never processed. -/
theorem C10_tokens_after_flag_ignored (prog : String) (rest : List String) :
    (processCommandLine (prog :: "--help" :: rest) emptySettings
        = processCommandLine [prog, "--help"] emptySettings ∧
      (processCommandLine (prog :: "--help" :: rest) emptySettings).completion
        = Completion.returned false ∧
      (processCommandLine (prog :: "--help" :: rest) emptySettings).settings.helpRequested
        = true) ∧
    (processCommandLine (prog :: "-h" :: rest) emptySettings
        = processCommandLine [prog, "-h"] emptySettings ∧
      (processCommandLine (prog :: "-h" :: rest) emptySettings).completion
        = Completion.returned false ∧
      (processCommandLine (prog :: "-h" :: rest) emptySettings).settings.helpRequested
        = true) ∧
    (processCommandLine (prog :: "--version" :: rest) emptySettings
        = processCommandLine [prog, "--version"] emptySettings ∧
      (processCommandLine (prog :: "--version" :: rest) emptySettings).completion
        = Completion.returned false ∧
      (processCommandLine (prog :: "--version" :: rest) emptySettings).settings.versionRequested
        = true) := by
  simp only [processCommandLine_cons, scan_help, scan_h, scan_version]
  refine ⟨⟨?_, ?_, ?_⟩, ⟨?_, ?_, ?_⟩, ⟨?_, ?_, ?_⟩⟩ <;>
    simp [afterLoop, emptySettings]

/-- Induction over a token list that may consume one or two tokens per step. -/
theorem tokens_induction {P : List String → Prop} (h0 : P [])
    (h1 : ∀ a : String, P [a])
    (h2 : ∀ (a b : String) (rest : List String), P rest → P (b :: rest) → P (a :: b :: rest)) :
    ∀ l : List String, P l := by
  have key : ∀ l : List String, P l ∧ ∀ a : String, P (a :: l) := by
    intro l
    induction l with
    | nil => exact ⟨h0, h1⟩
    | cons b rest ih => exact ⟨ih.2 b, fun a => h2 a b rest ih.1 (ih.2 b)⟩
  exact fun l => (key l).1

/-! ### The branches of the loop, one lemma each -/

theorem scan_multi_cipher_last (s : ProgramSettings) (n : Nat) :
    scan ["--multi-cipher"] s n
      = ⟨s, n, some (.MissingArgument "--multi-cipher requires a positive integer argument")⟩ := by
  rw [scan.eq_def]
  simp

theorem scan_multi_cipher (value : String) (rest : List String) (s : ProgramSettings)
    (n : Nat) :
    scan ("--multi-cipher" :: value :: rest) s n
      = if value.isEmpty then
          ⟨s, n, some (.MissingArgument "--multi-cipher requires a positive integer argument")⟩
        else
          match stoul value with
          | .error _ =>
            ⟨s, n, some (.InvalidArgument "--multi-cipher requires a positive integer argument")⟩
          | .ok m => scan rest s m := by
  rw [scan.eq_def]
  simp

theorem scan_i_last (s : ProgramSettings) (n : Nat) :
    scan ["-i"] s n = ⟨s, n, some (.MissingArgument "-i requires a filename argument")⟩ := by
  rw [scan.eq_def]
  simp

theorem scan_i (file : String) (rest : List String) (s : ProgramSettings) (n : Nat) :
    scan ("-i" :: file :: rest) s n = scan rest { s with inputFile := file } n := by
  rw [scan.eq_def]
  simp

theorem scan_o_last (s : ProgramSettings) (n : Nat) :
    scan ["-o"] s n = ⟨s, n, some (.MissingArgument "-o requires a filename argument")⟩ := by
  rw [scan.eq_def]
  simp

theorem scan_o (file : String) (rest : List String) (s : ProgramSettings) (n : Nat) :
    scan ("-o" :: file :: rest) s n = scan rest { s with outputFile := file } n := by
  rw [scan.eq_def]
  simp

theorem scan_k_last (s : ProgramSettings) (n : Nat) :
    scan ["-k"] s n
      = ⟨s, n, some (.MissingArgument "-k requires a positive integer argument")⟩ := by
  rw [scan.eq_def]
  simp

theorem scan_k (key : String) (rest : List String) (s : ProgramSettings) (n : Nat) :
    scan ("-k" :: key :: rest) s n
      = scan rest { s with cipherKey := s.cipherKey ++ [key] } n := by
  rw [scan.eq_def]
  simp

theorem scan_encrypt (rest : List String) (s : ProgramSettings) (n : Nat) :
    scan ("--encrypt" :: rest) s n = scan rest { s with cipherMode := CipherMode.Encrypt } n := by
  rw [scan.eq_def]
  simp

theorem scan_decrypt (rest : List String) (s : ProgramSettings) (n : Nat) :
    scan ("--decrypt" :: rest) s n = scan rest { s with cipherMode := CipherMode.Decrypt } n := by
  rw [scan.eq_def]
  simp

theorem scan_c_last (s : ProgramSettings) (n : Nat) :
    scan ["-c"] s n = ⟨s, n, some (.MissingArgument "-c requires a string argument")⟩ := by
  rw [scan.eq_def]
  simp

theorem scan_c (name : String) (rest : List String) (s : ProgramSettings) (n : Nat) :
    scan ("-c" :: name :: rest) s n
      = if name = "caesar" then
          scan rest { s with cipherType := s.cipherType ++ [CipherType.Caesar] } n
        else if name = "playfair" then
          scan rest { s with cipherType := s.cipherType ++ [CipherType.Playfair] } n
        else if name = "vigenere" then
          scan rest { s with cipherType := s.cipherType ++ [CipherType.Vigenere] } n
        else ⟨s, n, some (.InvalidArgument ("unknown cipher \x27" ++ name ++ "\x27"))⟩ := by
  rw [scan.eq_def]
  simp

/-- The closed set of tokens the loop recognises in flag position. -/
theorem flag_cases (a : String) :
    a = "-h" ∨ a = "--help" ∨ a = "--version" ∨ a = "--multi-cipher" ∨ a = "-i" ∨ a = "-o" ∨
      a = "-k" ∨ a = "--encrypt" ∨ a = "--decrypt" ∨ a = "-c" ∨
      (a ≠ "-h" ∧ a ≠ "--help" ∧ a ≠ "--version" ∧ a ≠ "--multi-cipher" ∧ a ≠ "-i" ∧
        a ≠ "-o" ∧ a ≠ "-k" ∧ a ≠ "--encrypt" ∧ a ≠ "--decrypt" ∧ a ≠ "-c") := by
  tauto

theorem scan_unknown (a : String) (rest : List String) (s : ProgramSettings) (n : Nat)
    (h : a ≠ "-h" ∧ a ≠ "--help" ∧ a ≠ "--version" ∧ a ≠ "--multi-cipher" ∧ a ≠ "-i" ∧
        a ≠ "-o" ∧ a ≠ "-k" ∧ a ≠ "--encrypt" ∧ a ≠ "--decrypt" ∧ a ≠ "-c") :
    scan (a :: rest) s n
      = ⟨s, n, some (.InvalidArgument ("unknown argument \x27" ++ a ++ "\x27"))⟩ := by
  obtain ⟨h1, h2, h3, h4, h5, h6, h7, h8, h9, h10⟩ := h
  rw [scan.eq_def]
  simp [h1, h2, h3, h4, h5, h6, h7, h8, h9, h10]

/-- When the loop is left without an exception, its `nExpectedCiphers` is the
value given to the last `--multi-cipher` processed. -/
theorem scan_nExpectedCiphers (l : List String) :
    ∀ (s : ProgramSettings) (n : Nat), (scan l s n).thrown = none →
      (scan l s n).nExpectedCiphers = lastMultiCipher l n := by
  induction l using tokens_induction with
  | h0 => intro s n _; rfl
  | h1 a =>
    intro s n
    rcases flag_cases a with h | h | h | h | h | h | h | h | h | h | h
    · subst h; simp [scan_h, lastMultiCipher]
    · subst h; simp [scan_help, lastMultiCipher]
    · subst h; simp [scan_version, lastMultiCipher]
    · subst h; simp [scan_multi_cipher_last, lastMultiCipher]
    · subst h; simp [scan_i_last]
    · subst h; simp [scan_o_last]
    · subst h; simp [scan_k_last]
    · subst h; simp [scan_encrypt, lastMultiCipher, scan]
    · subst h; simp [scan_decrypt, lastMultiCipher, scan]
    · subst h; simp [scan_c_last]
    · simp [scan_unknown _ _ _ _ h]
  | h2 a b rest ih1 ih2 =>
    intro s n
    rcases flag_cases a with h | h | h | h | h | h | h | h | h | h | h
    · subst h; simp [scan_h, lastMultiCipher]
    · subst h; simp [scan_help, lastMultiCipher]
    · subst h; simp [scan_version, lastMultiCipher]
    · subst h
      rw [scan_multi_cipher]
      have hl : lastMultiCipher ("--multi-cipher" :: b :: rest) n
          = match stoul b with
            | .ok m => lastMultiCipher rest m
            | .error _ => n := by
        simp [lastMultiCipher]
      rw [hl]
      split_ifs with he
      · simp
      · cases hs : stoul b with
        | error e => simp
        | ok m => exact fun ht => ih1 _ _ ht
    · subst h; rw [scan_i]; intro ht; rw [ih1 _ _ ht]; simp [lastMultiCipher]
    · subst h; rw [scan_o]; intro ht; rw [ih1 _ _ ht]; simp [lastMultiCipher]
    · subst h; rw [scan_k]; intro ht; rw [ih1 _ _ ht]; simp [lastMultiCipher]
    · subst h; rw [scan_encrypt]; intro ht; rw [ih2 _ _ ht]; simp [lastMultiCipher]
    · subst h; rw [scan_decrypt]; intro ht; rw [ih2 _ _ ht]; simp [lastMultiCipher]
    · subst h
      rw [scan_c]
      have hl : lastMultiCipher ("-c" :: b :: rest) n = lastMultiCipher rest n := by
        simp [lastMultiCipher]
      rw [hl]
      split_ifs
      · exact fun ht => ih1 _ _ ht
      · exact fun ht => ih1 _ _ ht
      · exact fun ht => ih1 _ _ ht
      · simp
    · simp [scan_unknown _ _ _ _ h]

/-! ### Lines 121-140 -/

theorem afterLoop_thrown (e : LoopExit) (x : Exception) (h : e.thrown = some x) :
    afterLoop e = ⟨e.settings, Completion.threw x⟩ := by
  simp [afterLoop, h]

theorem afterLoop_settings (e : LoopExit) (h : e.thrown = none) :
    (afterLoop e).settings = withDefaults e.settings e.nExpectedCiphers := by
  obtain ⟨s, n, t⟩ := e
  obtain ⟨hr, vr, inf, outf, ct, ck, cm⟩ := s
  simp only at h
  subst h
  by_cases hn : n = 1 <;> cases ct <;> cases ck <;>
    simp [afterLoop, withDefaults, hn] <;> split_ifs <;> rfl

theorem afterLoop_completion (e : LoopExit) (h : e.thrown = none) :
    (afterLoop e).completion
      = if (withDefaults e.settings e.nExpectedCiphers).cipherType.length ≠ e.nExpectedCiphers ∨
            (withDefaults e.settings e.nExpectedCiphers).cipherKey.length ≠ e.nExpectedCiphers
        then Completion.threw (Exception.InvalidArgument
          ("expected types and keys for " ++ toString e.nExpectedCiphers ++ " ciphers\n"
            ++ "        but received "
            ++ toString (withDefaults e.settings e.nExpectedCiphers).cipherType.length
            ++ " types and "
            ++ toString (withDefaults e.settings e.nExpectedCiphers).cipherKey.length
            ++ " keys"))
        else Completion.returned false := by
  obtain ⟨s, n, t⟩ := e
  obtain ⟨hr, vr, inf, outf, ct, ck, cm⟩ := s
  simp only at h
  subst h
  by_cases hn : n = 1 <;> cases ct <;> cases ck <;>
    simp [afterLoop, withDefaults, hn] <;> split_ifs <;> rfl

/-- A call that returns left the loop without an exception, and the counts of
its configuration both equal `nExpectedCiphers`. -/
theorem afterLoop_returned (e : LoopExit) (value : Bool)
    (h : (afterLoop e).completion = Completion.returned value) :
    e.thrown = none ∧
    (afterLoop e).settings.cipherType.length = e.nExpectedCiphers ∧
    (afterLoop e).settings.cipherKey.length = e.nExpectedCiphers := by
  cases ht : e.thrown with
  | some x => rw [afterLoop_thrown e x ht] at h; simp at h
  | none =>
    rw [afterLoop_completion e ht] at h
    rw [afterLoop_settings e ht]
    split_ifs at h with hc
    push_neg at hc
    exact ⟨rfl, hc.1, hc.2⟩

/-- C4: for every token sequence on which `processCommandLine`, started from the
empty configuration, succeeds, the number of cipher kinds equals the number of
cipher keys, and both equal the expected cipher count: the final value of
`nExpectedCiphers`, which is the value given to the last `--multi-cipher`
processed, or 1 when none was processed. -/
theorem C4_count_invariant (cmdLineArgs : List String) (value : Bool)
    (h : (processCommandLine cmdLineArgs emptySettings).completion
      = Completion.returned value) :
    (processCommandLine cmdLineArgs emptySettings).settings.cipherType.length
      = (processCommandLine cmdLineArgs emptySettings).settings.cipherKey.length ∧
    (processCommandLine cmdLineArgs emptySettings).settings.cipherKey.length
      = (processLoop cmdLineArgs 1 emptySettings 1).nExpectedCiphers ∧
    (processLoop cmdLineArgs 1 emptySettings 1).nExpectedCiphers
      = expectedCount cmdLineArgs := by
  obtain ⟨ht, h1, h2⟩ := afterLoop_returned _ value h
  refine ⟨?_, h2, ?_⟩
  · rw [processCommandLine, h1, h2]
  · cases cmdLineArgs with
    | nil => rw [processLoop_nil]; rfl
    | cons prog rest =>
      rw [processLoop_cons] at ht ⊢
      exact scan_nExpectedCiphers rest _ _ ht

/-- C4, applied to the command line of the matching multi-cipher test: two
kinds, two keys, expected count 2. -/
theorem C4_count_invariant_witness :
    (processCommandLine
        ["mpags-cipher", "--multi-cipher", "2", "-c", "caesar", "-k", "23", "-c", "playfair",
          "-k", "playfairexample"] emptySettings).completion = Completion.returned false ∧
    expectedCount
        ["mpags-cipher", "--multi-cipher", "2", "-c", "caesar", "-k", "23", "-c", "playfair",
          "-k", "playfairexample"] = 2 ∧
    (processCommandLine
        ["mpags-cipher", "--multi-cipher", "2", "-c", "caesar", "-k", "23", "-c", "playfair",
          "-k", "playfairexample"] emptySettings).settings.cipherType.length
      = (processCommandLine
        ["mpags-cipher", "--multi-cipher", "2", "-c", "caesar", "-k", "23", "-c", "playfair",
          "-k", "playfairexample"] emptySettings).settings.cipherKey.length :=
  have h : (processCommandLine
        ["mpags-cipher", "--multi-cipher", "2", "-c", "caesar", "-k", "23", "-c", "playfair",
          "-k", "playfairexample"] emptySettings).completion = Completion.returned false := by
    rw [processCommandLine_cons]; decide
  ⟨h, by decide, (C4_count_invariant _ false h).1⟩

/-- C6: for every token sequence whose scan raises no error, if after
defaulting the number of collected cipher kinds or the number of collected keys
differs from the expected cipher count, parsing fails with InvalidArgument; the
message names the expected and the received counts. -/
theorem C6_count_mismatch_is_invalid (cmdLineArgs : List String) (s : ProgramSettings)
    (n : Nat) (hscan : processLoop cmdLineArgs 1 emptySettings 1 = ⟨s, n, none⟩)
    (hmis : (withDefaults s n).cipherType.length ≠ n ∨ (withDefaults s n).cipherKey.length ≠ n) :
    (processCommandLine cmdLineArgs emptySettings).completion
      = Completion.threw (Exception.InvalidArgument
          ("expected types and keys for " ++ toString n ++ " ciphers\n"
            ++ "        but received " ++ toString (withDefaults s n).cipherType.length
            ++ " types and " ++ toString (withDefaults s n).cipherKey.length ++ " keys")) := by
  rw [processCommandLine, hscan, afterLoop_completion _ rfl]
  simp only [if_pos hmis]

/-- C6, applied to the command line of the mismatching multi-cipher test: two
ciphers expected, one kind and one key supplied. -/
theorem C6_count_mismatch_is_invalid_witness :
    processLoop ["mpags-cipher", "--multi-cipher", "2", "-c", "caesar", "-k", "23"] 1
        emptySettings 1
      = ⟨{ emptySettings with cipherType := [CipherType.Caesar], cipherKey := ["23"] }, 2, none⟩ ∧
    (processCommandLine ["mpags-cipher", "--multi-cipher", "2", "-c", "caesar", "-k", "23"]
        emptySettings).completion
      = Completion.threw (Exception.InvalidArgument
          "expected types and keys for 2 ciphers\n        but received 1 types and 1 keys") :=
  have hscan : processLoop ["mpags-cipher", "--multi-cipher", "2", "-c", "caesar", "-k", "23"] 1
        emptySettings 1
      = ⟨{ emptySettings with cipherType := [CipherType.Caesar], cipherKey := ["23"] }, 2,
          none⟩ := by
    rw [processLoop_cons]; decide
  ⟨hscan, C6_count_mismatch_is_invalid _ _ 2 hscan (by decide)⟩

/-- A scan that meets none of `-c`, `-k`, `--multi-cipher` leaves the kinds, the
keys and the expected count as they were. -/
theorem scan_without_cipher_flags (l : List String) :
    ∀ (s : ProgramSettings) (n : Nat),
      "-c" ∉ l → "-k" ∉ l → "--multi-cipher" ∉ l →
      (scan l s n).nExpectedCiphers = n ∧ (scan l s n).settings.cipherType = s.cipherType ∧
        (scan l s n).settings.cipherKey = s.cipherKey := by
  induction l using tokens_induction with
  | h0 => intro s n _ _ _; exact ⟨rfl, rfl, rfl⟩
  | h1 a =>
    intro s n hc hk hm
    rcases flag_cases a with h | h | h | h | h | h | h | h | h | h | h
    · subst h; simp [scan_h]
    · subst h; simp [scan_help]
    · subst h; simp [scan_version]
    · subst h; simp at hm
    · subst h; simp [scan_i_last]
    · subst h; simp [scan_o_last]
    · subst h; simp at hk
    · subst h; simp [scan_encrypt, scan]
    · subst h; simp [scan_decrypt, scan]
    · subst h; simp at hc
    · simp [scan_unknown _ _ _ _ h]
  | h2 a b rest ih1 ih2 =>
    intro s n hc hk hm
    have hc1 : "-c" ∉ b :: rest := fun hx => hc (List.mem_cons_of_mem _ hx)
    have hk1 : "-k" ∉ b :: rest := fun hx => hk (List.mem_cons_of_mem _ hx)
    have hm1 : "--multi-cipher" ∉ b :: rest := fun hx => hm (List.mem_cons_of_mem _ hx)
    have hc2 : "-c" ∉ rest := fun hx => hc1 (List.mem_cons_of_mem _ hx)
    have hk2 : "-k" ∉ rest := fun hx => hk1 (List.mem_cons_of_mem _ hx)
    have hm2 : "--multi-cipher" ∉ rest := fun hx => hm1 (List.mem_cons_of_mem _ hx)
    rcases flag_cases a with h | h | h | h | h | h | h | h | h | h | h
    · subst h; simp [scan_h]
    · subst h; simp [scan_help]
    · subst h; simp [scan_version]
    · subst h; simp at hm
    · subst h; rw [scan_i]; exact ih1 _ _ hc2 hk2 hm2
    · subst h; rw [scan_o]; exact ih1 _ _ hc2 hk2 hm2
    · subst h; simp at hk
    · subst h; rw [scan_encrypt]; exact ih2 _ _ hc1 hk1 hm1
    · subst h; rw [scan_decrypt]; exact ih2 _ _ hc1 hk1 hm1
    · subst h; simp at hc
    · simp [scan_unknown _ _ _ _ h]

/-- C7: backward-compatible defaulting when the expected cipher count is 1.
(1) Every successful parse of a token sequence that contains none of `-c`, `-k`,
`--multi-cipher` after the program name yields exactly one cipher
specification, (Caesar, empty key); (2) `[prog]` is such a parse; (3) for every
key `k`, `[prog, -k, k]` succeeds with keys `[k]` and kinds `[Caesar]`; (4) for
every cipher kind, `[prog, -c, name]` with its name succeeds with that kind and
the keys `[""]`. -/
theorem C7_single_cipher_defaults :
    (∀ (cmdLineArgs : List String) (value : Bool),
      "-c" ∉ cmdLineArgs.tail → "-k" ∉ cmdLineArgs.tail →
      "--multi-cipher" ∉ cmdLineArgs.tail →
      (processCommandLine cmdLineArgs emptySettings).completion = Completion.returned value →
      (processCommandLine cmdLineArgs emptySettings).settings.cipherType = [CipherType.Caesar] ∧
      (processCommandLine cmdLineArgs emptySettings).settings.cipherKey = [""]) ∧
    (∀ prog : String,
      processCommandLine [prog] emptySettings
        = ⟨{ emptySettings with cipherType := [CipherType.Caesar], cipherKey := [""] },
            Completion.returned false⟩) ∧
    (∀ prog k : String,
      processCommandLine [prog, "-k", k] emptySettings
        = ⟨{ emptySettings with cipherType := [CipherType.Caesar], cipherKey := [k] },
            Completion.returned false⟩) ∧
    (∀ (prog : String) (kind : CipherType),
      processCommandLine [prog, "-c", cipherName kind] emptySettings
        = ⟨{ emptySettings with cipherType := [kind], cipherKey := [""] },
            Completion.returned false⟩) := by
  refine ⟨?_, ?_, ?_, ?_⟩
  · intro cmdLineArgs value hc hk hm h
    obtain ⟨ht, -, -⟩ := afterLoop_returned _ value h
    rw [processCommandLine, afterLoop_settings _ ht]
    cases cmdLineArgs with
    | nil => rw [processLoop_nil]; simp [withDefaults, emptySettings]
    | cons prog rest =>
      rw [processLoop_cons]
      obtain ⟨hn, hty, hky⟩ := scan_without_cipher_flags rest emptySettings 1 hc hk hm
      simp only [withDefaults, hn, hty, hky]
      simp [emptySettings]
  · intro prog
    rw [processCommandLine_cons]; rfl
  · intro prog k
    rw [processCommandLine_cons, scan_k]
    simp [scan, afterLoop, emptySettings]
  · intro prog kind
    rw [processCommandLine_cons, scan_c]
    cases kind <;> simp [cipherName, scan, afterLoop, emptySettings]

/-- C7, applied: a command line with an input file and `--decrypt` but no
cipher flag parses to the single default cipher; so do `[prog]`, `[prog, -k, 4]`
and `[prog, -c, playfair]`. -/
theorem C7_single_cipher_defaults_witness :
    (processCommandLine ["mpags-cipher", "-i", "input.txt", "--decrypt"]
        emptySettings).completion = Completion.returned false ∧
    (processCommandLine ["mpags-cipher", "-i", "input.txt", "--decrypt"]
        emptySettings).settings.cipherType = [CipherType.Caesar] ∧
    (processCommandLine ["mpags-cipher", "-i", "input.txt", "--decrypt"]
        emptySettings).settings.cipherKey = [""] :=
  have h : (processCommandLine ["mpags-cipher", "-i", "input.txt", "--decrypt"]
        emptySettings).completion = Completion.returned false := by
    rw [processCommandLine_cons]; decide
  ⟨h, C7_single_cipher_defaults.1 ["mpags-cipher", "-i", "input.txt", "--decrypt"] false
    (by decide) (by decide) (by decide) h⟩

/-! ### `std::stoul` on the decimal representation of a number -/

theorem digitChar_spec (k : Nat) (h : k < 10) :
    (Nat.digitChar k).isDigit = true ∧ (Nat.digitChar k).toNat - 48 = k := by
  interval_cases k <;> decide

theorem toDigitsCore_spec (n : Nat) :
    ∀ (fuel : Nat) (ds : List Char), n < fuel →
      ∃ digs : List Char, Nat.toDigitsCore 10 fuel n ds = digs ++ ds ∧ digs ≠ [] ∧
        (∀ c ∈ digs, c.isDigit = true) ∧
        digs.foldl (fun acc d => 10 * acc + (d.toNat - 48)) 0 = n := by
  induction n using Nat.strong_induction_on with
  | _ n ih =>
    intro fuel ds hf
    cases fuel with
    | zero => omega
    | succ fuel =>
      have hd := digitChar_spec (n % 10) (Nat.mod_lt _ (by decide))
      by_cases h0 : n / 10 = 0
      · refine ⟨[Nat.digitChar (n % 10)], ?_, by simp, ?_, ?_⟩
        · simp [Nat.toDigitsCore, h0]
        · intro c hc
          rw [List.mem_singleton.mp hc]; exact hd.1
        · simp [hd.2]; omega
      · have hlt : n / 10 < n := by omega
        obtain ⟨digs, he, hne, hall, hv⟩ :=
          ih (n / 10) hlt fuel (Nat.digitChar (n % 10) :: ds) (by omega)
        refine ⟨digs ++ [Nat.digitChar (n % 10)], ?_, by simp, ?_, ?_⟩
        · simp [Nat.toDigitsCore, h0, he]
        · intro c hc
          rcases List.mem_append.mp hc with hc | hc
          · exact hall c hc
          · rw [List.mem_singleton.mp hc]; exact hd.1
        · rw [List.foldl_append, hv]; simp [hd.2]; omega

theorem toString_data_spec (n : Nat) :
    (toString n).data ≠ [] ∧ (∀ c ∈ (toString n).data, c.isDigit = true) ∧
      (toString n).data.foldl (fun acc d => 10 * acc + (d.toNat - 48)) 0 = n := by
  obtain ⟨digs, he, hne, hall, hv⟩ := toDigitsCore_spec n (n + 1) [] (by omega)
  have hdata : (toString n).data = digs := by
    show Nat.toDigitsCore 10 (n + 1) n [] = digs
    rw [he]; simp
  rw [hdata]
  exact ⟨hne, hall, hv⟩

theorem stoul_of_digits (str : String) (hne : str.data ≠ [])
    (hall : ∀ c ∈ str.data, c.isDigit = true) :
    stoul str
      = if str.data.foldl (fun acc d => 10 * acc + (d.toNat - 48)) 0 > ULONG_MAX
        then Except.error StoulError.out_of_range
        else Except.ok (str.data.foldl (fun acc d => 10 * acc + (d.toNat - 48)) 0) := by
  obtain ⟨l⟩ := str
  cases l with
  | nil => exact absurd rfl hne
  | cons c tl =>
    have hc : c.isDigit = true := hall c (List.mem_cons_self _ _)
    have hsp : isspace c = false := by
      have h1 : c ≠ ' ' := by rintro rfl; exact absurd hc (by decide)
      have h2 : c ≠ '\t' := by rintro rfl; exact absurd hc (by decide)
      have h3 : c ≠ '\n' := by rintro rfl; exact absurd hc (by decide)
      have h4 : c ≠ '\x0b' := by rintro rfl; exact absurd hc (by decide)
      have h5 : c ≠ '\x0c' := by rintro rfl; exact absurd hc (by decide)
      have h6 : c ≠ '\r' := by rintro rfl; exact absurd hc (by decide)
      simp [isspace, h1, h2, h3, h4, h5, h6]
    have hminus : c ≠ '-' := by rintro rfl; exact absurd hc (by decide)
    have hplus : c ≠ '+' := by rintro rfl; exact absurd hc (by decide)
    have htw : (c :: tl).takeWhile Char.isDigit = c :: tl := by
      rw [List.takeWhile_eq_self_iff]; exact hall
    unfold stoul
    have hskip : skipSign (c :: tl) = c :: tl := by
      unfold skipSign
      split <;> simp_all
    have hhead : ¬ ((c :: tl).head? = some '-') := by simpa using hminus
    simp only [List.dropWhile_cons, hsp, Bool.false_eq_true, if_false, hskip, htw, hhead]
    simp

/-- The decimal representation of a number that fits `unsigned long` is not
empty and `std::stoul` converts it back to the number. -/
theorem stoul_toString (n : Nat) (h : n ≤ ULONG_MAX) :
    (toString n).isEmpty = false ∧ stoul (toString n) = Except.ok n := by
  obtain ⟨hne, hall, hv⟩ := toString_data_spec n
  constructor
  · cases he : (toString n).isEmpty with
    | false => rfl
    | true =>
      have h1 := (String.isEmpty_iff _).mp he
      rw [h1] at hne
      exact absurd rfl hne
  · rw [stoul_of_digits _ hne hall, hv, if_neg (by omega)]

theorem scan_pairTokens (pairs : List (CipherType × String)) :
    ∀ (s : ProgramSettings) (n : Nat),
      scan (pairTokens pairs) s n
        = ⟨{ s with cipherType := s.cipherType ++ pairs.map Prod.fst,
                    cipherKey := s.cipherKey ++ pairs.map Prod.snd }, n, none⟩ := by
  induction pairs with
  | nil => intro s n; simp [pairTokens, scan]
  | cons p rest ih =>
    intro s n
    obtain ⟨kind, key⟩ := p
    simp only [pairTokens]
    rw [scan_c]
    cases kind <;> simp [cipherName, scan_k, ih]

theorem withDefaults_of_length (s : ProgramSettings) (n : Nat)
    (ht : s.cipherType.length = n) (hk : s.cipherKey.length = n) : withDefaults s n = s := by
  obtain ⟨hr, vr, inf, outf, ct, ck, cm⟩ := s
  simp only at ht hk
  have h1 : ¬ (n = 1 ∧ ct = []) := by
    rintro ⟨h1, rfl⟩; simp at ht; omega
  have h2 : ¬ (n = 1 ∧ ck = []) := by
    rintro ⟨h1, rfl⟩; simp at hk; omega
  simp [withDefaults, h1, h2]

/-- A loop exit without exception whose counts match `nExpectedCiphers` makes
the call return with the configuration unchanged. -/
theorem afterLoop_of_length (s : ProgramSettings) (n : Nat)
    (ht : s.cipherType.length = n) (hk : s.cipherKey.length = n) :
    afterLoop ⟨s, n, none⟩ = ⟨s, Completion.returned false⟩ := by
  have hs := afterLoop_settings ⟨s, n, none⟩ rfl
  have hc := afterLoop_completion ⟨s, n, none⟩ rfl
  simp only [withDefaults_of_length s n ht hk] at hs hc
  rw [if_neg (by simp [ht, hk])] at hc
  cases hr : afterLoop ⟨s, n, none⟩ with
  | mk s1 c1 => rw [hr] at hs hc; simp only at hs hc; rw [hs, hc]

/-- C5: for every list of n (kind, key) pairs, with the kinds given by their
names caesar, playfair, vigenere and arbitrary keys, parsing
`[prog, --multi-cipher, n, -c name_1, -k key_1, ..., -c name_n, -k key_n]` from
the empty configuration succeeds; the kind sequence is the mapped names in the
given order, the key sequence is the keys in the given order, and no other field
changes.  The count n has to fit `unsigned long`, as the size of any token
vector does. -/
theorem C5_matching_pairs_parse (prog : String) (pairs : List (CipherType × String))
    (hn : pairs.length ≤ ULONG_MAX) :
    processCommandLine
        (prog :: "--multi-cipher" :: toString pairs.length :: pairTokens pairs) emptySettings
      = ⟨{ emptySettings with cipherType := pairs.map Prod.fst, cipherKey := pairs.map Prod.snd },
          Completion.returned false⟩ := by
  obtain ⟨hne, hst⟩ := stoul_toString pairs.length hn
  rw [processCommandLine_cons, scan_multi_cipher]
  simp only [hne, hst, scan_pairTokens]
  exact afterLoop_of_length _ _ (by simp [emptySettings]) (by simp [emptySettings])

/-- C5, applied to the command line of the matching multi-cipher test. -/
theorem C5_matching_pairs_parse_witness :
    [(CipherType.Caesar, "23"), (CipherType.Playfair, "playfairexample")].length ≤ ULONG_MAX ∧
    processCommandLine
        ["mpags-cipher", "--multi-cipher", "2", "-c", "caesar", "-k", "23", "-c", "playfair",
          "-k", "playfairexample"] emptySettings
      = ⟨{ emptySettings with cipherType := [CipherType.Caesar, CipherType.Playfair],
                              cipherKey := ["23", "playfairexample"] },
          Completion.returned false⟩ :=
  ⟨by decide,
    C5_matching_pairs_parse "mpags-cipher"
      [(CipherType.Caesar, "23"), (CipherType.Playfair, "playfairexample")] (by decide)⟩


/-! ### A help or version flag reached by the scan -/

theorem scan_indicator (flag : String) (rest : List String) (s : ProgramSettings) (n : Nat)
    (hflag : flag = "-h" ∨ flag = "--help" ∨ flag = "--version") :
    scan (flag :: rest) s n = ⟨setIndicator flag s, n, none⟩ := by
  rcases hflag with h | h | h <;> subst h
  · rw [scan_h]; simp [setIndicator]
  · rw [scan_help]; simp [setIndicator]
  · rw [scan_version]; simp [setIndicator]

/-- When the scan of `pre` ends normally (no exception, no `break`), the scan of
`pre` followed by a help or version flag stops at that flag, in the state in
which the scan of `pre` ended, whatever follows the flag. -/
theorem scan_append_indicator (flag : String) (rest : List String)
    (hflag : flag = "-h" ∨ flag = "--help" ∨ flag = "--version") (pre : List String) :
    ∀ (s : ProgramSettings) (n : Nat),
      (scan pre s n).thrown = none →
      (scan pre s n).settings.helpRequested = false →
      (scan pre s n).settings.versionRequested = false →
      scan (pre ++ flag :: rest) s n
        = ⟨setIndicator flag (scan pre s n).settings, (scan pre s n).nExpectedCiphers, none⟩ := by
  induction pre using tokens_induction with
  | h0 =>
    intro s n _ _ _
    simpa [scan] using scan_indicator flag rest s n hflag
  | h1 a =>
    intro s n ht hh hv
    rcases flag_cases a with h | h | h | h | h | h | h | h | h | h | h
    · subst h; simp [scan_h] at hh
    · subst h; simp [scan_help] at hh
    · subst h; simp [scan_version] at hv
    · subst h; simp [scan_multi_cipher_last] at ht
    · subst h; simp [scan_i_last] at ht
    · subst h; simp [scan_o_last] at ht
    · subst h; simp [scan_k_last] at ht
    · subst h
      simp only [List.singleton_append, scan_encrypt]
      simpa [scan] using scan_indicator flag rest _ n hflag
    · subst h
      simp only [List.singleton_append, scan_decrypt]
      simpa [scan] using scan_indicator flag rest _ n hflag
    · subst h; simp [scan_c_last] at ht
    · simp [scan_unknown _ _ _ _ h] at ht
  | h2 a b pre ih1 ih2 =>
    intro s n ht hh hv
    rcases flag_cases a with h | h | h | h | h | h | h | h | h | h | h
    · subst h; simp [scan_h] at hh
    · subst h; simp [scan_help] at hh
    · subst h; simp [scan_version] at hv
    · subst h
      simp only [List.cons_append, scan_multi_cipher] at ht hh hv ⊢
      split_ifs at ht hh hv ⊢ with he
      cases hs : stoul b with
      | error e => simp [hs] at ht
      | ok m =>
        simp only [hs] at ht hh hv ⊢
        exact ih1 _ _ ht hh hv
    · subst h
      simp only [List.cons_append, scan_i] at ht hh hv ⊢
      exact ih1 _ _ ht hh hv
    · subst h
      simp only [List.cons_append, scan_o] at ht hh hv ⊢
      exact ih1 _ _ ht hh hv
    · subst h
      simp only [List.cons_append, scan_k] at ht hh hv ⊢
      exact ih1 _ _ ht hh hv
    · subst h
      simp only [List.cons_append, scan_encrypt] at ht hh hv ⊢
      exact ih2 _ _ ht hh hv
    · subst h
      simp only [List.cons_append, scan_decrypt] at ht hh hv ⊢
      exact ih2 _ _ ht hh hv
    · subst h
      simp only [List.cons_append, scan_c] at ht hh hv ⊢
      split_ifs at ht hh hv ⊢
      · exact ih1 _ _ ht hh hv
      · exact ih1 _ _ ht hh hv
      · exact ih1 _ _ ht hh hv
    · simp [scan_unknown _ _ _ _ h] at ht

/-- When the scan of `pre` changed the help or the version indicator, it was left
by `break`, and tokens added after `pre` are never reached. -/
theorem scan_append_of_break (l : List String) (pre : List String) :
    ∀ (s : ProgramSettings) (n : Nat),
      (scan pre s n).thrown = none →
      ((scan pre s n).settings.helpRequested ≠ s.helpRequested ∨
        (scan pre s n).settings.versionRequested ≠ s.versionRequested) →
      scan (pre ++ l) s n = scan pre s n := by
  induction pre using tokens_induction with
  | h0 => intro s n _ hb; simp [scan] at hb
  | h1 a =>
    intro s n ht hb
    rcases flag_cases a with h | h | h | h | h | h | h | h | h | h | h
    · subst h; simp [scan_h]
    · subst h; simp [scan_help]
    · subst h; simp [scan_version]
    · subst h; simp [scan_multi_cipher_last] at ht
    · subst h; simp [scan_i_last] at ht
    · subst h; simp [scan_o_last] at ht
    · subst h; simp [scan_k_last] at ht
    · subst h; simp [scan_encrypt, scan] at hb
    · subst h; simp [scan_decrypt, scan] at hb
    · subst h; simp [scan_c_last] at ht
    · simp [scan_unknown _ _ _ _ h] at ht
  | h2 a b pre ih1 ih2 =>
    intro s n ht hb
    rcases flag_cases a with h | h | h | h | h | h | h | h | h | h | h
    · subst h; simp [scan_h]
    · subst h; simp [scan_help]
    · subst h; simp [scan_version]
    · subst h
      simp only [List.cons_append, scan_multi_cipher] at ht hb ⊢
      split_ifs at ht hb ⊢ with he
      cases hs : stoul b with
      | error e => simp [hs] at ht
      | ok m =>
        simp only [hs] at ht hb ⊢
        exact ih1 _ _ ht hb
    · subst h
      simp only [List.cons_append, scan_i] at ht hb ⊢
      exact ih1 _ _ ht hb
    · subst h
      simp only [List.cons_append, scan_o] at ht hb ⊢
      exact ih1 _ _ ht hb
    · subst h
      simp only [List.cons_append, scan_k] at ht hb ⊢
      exact ih1 _ _ ht hb
    · subst h
      simp only [List.cons_append, scan_encrypt] at ht hb ⊢
      exact ih2 _ _ ht hb
    · subst h
      simp only [List.cons_append, scan_decrypt] at ht hb ⊢
      exact ih2 _ _ ht hb
    · subst h
      simp only [List.cons_append, scan_c] at ht hb ⊢
      split_ifs at ht hb ⊢
      · exact ih1 _ _ ht hb
      · exact ih1 _ _ ht hb
      · exact ih1 _ _ ht hb
    · simp [scan_unknown _ _ _ _ h] at ht

/-- Setting an indicator commutes with lines 121-140 and does not change how
the call completes. -/
theorem afterLoop_setIndicator (flag : String) (s : ProgramSettings) (n : Nat) :
    afterLoop ⟨setIndicator flag s, n, none⟩
      = ⟨setIndicator flag (afterLoop ⟨s, n, none⟩).settings,
          (afterLoop ⟨s, n, none⟩).completion⟩ := by
  have hs := afterLoop_settings ⟨setIndicator flag s, n, none⟩ rfl
  have hc := afterLoop_completion ⟨setIndicator flag s, n, none⟩ rfl
  rw [afterLoop_settings ⟨s, n, none⟩ rfl, afterLoop_completion ⟨s, n, none⟩ rfl]
  have e1 : withDefaults (setIndicator flag s) n = setIndicator flag (withDefaults s n) := by
    unfold setIndicator withDefaults
    split_ifs <;> rfl
  have e2 : (setIndicator flag (withDefaults s n)).cipherType = (withDefaults s n).cipherType := by
    unfold setIndicator; split_ifs <;> rfl
  have e3 : (setIndicator flag (withDefaults s n)).cipherKey = (withDefaults s n).cipherKey := by
    unfold setIndicator; split_ifs <;> rfl
  simp only [e1, e2, e3] at hs hc
  cases hr : afterLoop ⟨setIndicator flag s, n, none⟩ with
  | mk s1 c1 => rw [hr] at hs hc; simp only at hs hc; rw [hs, hc]

/-- C8 as stated fails: (1) `--help` after an unknown token is never reached and
parsing fails; (2) `--help` taken as the value of `-k` is a key, parsing succeeds
and the help flag is not set; (3) `--help` reached after `--multi-cipher 2`
sets the flag, but the count check that follows the loop fails. -/
theorem C8_help_anywhere_counterexample :
    ("--help" ∈ ["mpags-cipher", "--bogus", "--help"].tail ∧
      (processCommandLine ["mpags-cipher", "--bogus", "--help"] emptySettings).completion
        = Completion.threw (Exception.InvalidArgument "unknown argument \x27--bogus\x27")) ∧
    ("--help" ∈ ["mpags-cipher", "-k", "--help"].tail ∧
      processCommandLine ["mpags-cipher", "-k", "--help"] emptySettings
        = ⟨{ emptySettings with cipherType := [CipherType.Caesar], cipherKey := ["--help"] },
            Completion.returned false⟩) ∧
    ("--help" ∈ ["mpags-cipher", "--multi-cipher", "2", "--help"].tail ∧
      processCommandLine ["mpags-cipher", "--multi-cipher", "2", "--help"] emptySettings
        = ⟨{ emptySettings with helpRequested := true },
            Completion.threw (Exception.InvalidArgument
              "expected types and keys for 2 ciphers\n        but received 0 types and 0 keys")⟩) := by
  simp only [processCommandLine_cons]
  decide

/-- C8 (amended): for every token sequence in which `-h` or `--help` follows
tokens that parse successfully on their own without requesting the version,
parsing succeeds and the help flag is set, whatever the tokens after the flag;
the configuration is the one of the tokens before the flag with the help flag
set. -/
theorem C8_help_after_valid_tokens (prog flag : String) (pre rest : List String)
    (value : Bool) (hflag : flag = "-h" ∨ flag = "--help")
    (hpre : (processCommandLine (prog :: pre) emptySettings).completion
      = Completion.returned value)
    (hver : (processCommandLine (prog :: pre) emptySettings).settings.versionRequested
      = false) :
    processCommandLine (prog :: (pre ++ flag :: rest)) emptySettings
      = ⟨{ (processCommandLine (prog :: pre) emptySettings).settings with
            helpRequested := true }, Completion.returned value⟩ := by
  rw [processCommandLine_cons] at hpre hver ⊢
  rw [processCommandLine_cons]
  obtain ⟨ht, -, -⟩ := afterLoop_returned _ value hpre
  have hv : (scan pre emptySettings 1).settings.versionRequested = false := by
    rw [afterLoop_settings _ ht] at hver
    exact hver
  have hset : ∀ t : ProgramSettings, setIndicator flag t = { t with helpRequested := true } := by
    intro t
    rcases hflag with h | h <;> subst h <;> simp [setIndicator]
  cases hh : (scan pre emptySettings 1).settings.helpRequested with
  | true =>
    have hb := scan_append_of_break (flag :: rest) pre emptySettings 1 ht
      (Or.inl (by rw [hh]; simp [emptySettings]))
    rw [hb]
    have hh2 : (afterLoop (scan pre emptySettings 1)).settings.helpRequested = true := by
      rw [afterLoop_settings _ ht]; exact hh
    cases hr : afterLoop (scan pre emptySettings 1) with
    | mk s1 c1 =>
      rw [hr] at hpre hh2
      simp only at hpre hh2
      subst hpre
      obtain ⟨a1, a2, a3, a4, a5, a6, a7⟩ := s1
      simp only at hh2
      subst hh2
      rfl
  | false =>
    rw [scan_append_indicator flag rest (hflag.elim Or.inl (fun h => Or.inr (Or.inl h))) pre
      emptySettings 1 ht hh hv]
    rw [afterLoop_setIndicator, hset]
    have he : (⟨(scan pre emptySettings 1).settings, (scan pre emptySettings 1).nExpectedCiphers,
        none⟩ : LoopExit) = scan pre emptySettings 1 := by
      cases hr : scan pre emptySettings 1 with
      | mk s1 n1 t1 => rw [hr] at ht; simp only at ht; subst ht; rfl
    rw [he, hpre]

/-- C8 (amended), applied: `--help` after `-i input.txt --decrypt`, followed by
an unknown token. -/
theorem C8_help_after_valid_tokens_witness :
    (processCommandLine ["mpags-cipher", "-i", "input.txt", "--decrypt"]
        emptySettings).completion = Completion.returned false ∧
    (processCommandLine ["mpags-cipher", "-i", "input.txt", "--decrypt"]
        emptySettings).settings.versionRequested = false ∧
    processCommandLine ["mpags-cipher", "-i", "input.txt", "--decrypt", "--help", "--bogus"]
        emptySettings
      = ⟨{ emptySettings with helpRequested := true, inputFile := "input.txt",
                              cipherType := [CipherType.Caesar], cipherKey := [""],
                              cipherMode := CipherMode.Decrypt },
          Completion.returned false⟩ :=
  have hpre : (processCommandLine ["mpags-cipher", "-i", "input.txt", "--decrypt"]
        emptySettings).completion = Completion.returned false := by
    rw [processCommandLine_cons]; decide
  have hver : (processCommandLine ["mpags-cipher", "-i", "input.txt", "--decrypt"]
        emptySettings).settings.versionRequested = false := by
    rw [processCommandLine_cons]; decide
  have hres := C8_help_after_valid_tokens "mpags-cipher" "--help"
    ["-i", "input.txt", "--decrypt"] ["--bogus"] false (Or.inr rfl) hpre hver
  have hval : ({ (processCommandLine ["mpags-cipher", "-i", "input.txt", "--decrypt"]
        emptySettings).settings with helpRequested := true } : ProgramSettings)
      = { emptySettings with helpRequested := true, inputFile := "input.txt",
                             cipherType := [CipherType.Caesar], cipherKey := [""],
                             cipherMode := CipherMode.Decrypt } := by
    rw [processCommandLine_cons]; decide
  ⟨hpre, hver, by rw [← hval]; exact hres⟩

/-- C9 as stated fails: (1) after `--multi-cipher 2 --help` the count check runs
and parsing fails with InvalidArgument; (2) after `--help` alone, and after
`--version` alone, the default Caesar kind and the default empty key are
added. -/
theorem C9_checks_skipped_counterexample :
    processCommandLine ["mpags-cipher", "--multi-cipher", "2", "--help"] emptySettings
      = ⟨{ emptySettings with helpRequested := true },
          Completion.threw (Exception.InvalidArgument
            "expected types and keys for 2 ciphers\n        but received 0 types and 0 keys")⟩ ∧
    processCommandLine ["mpags-cipher", "--help"] emptySettings
      = ⟨{ emptySettings with helpRequested := true, cipherType := [CipherType.Caesar],
                              cipherKey := [""] }, Completion.returned false⟩ ∧
    processCommandLine ["mpags-cipher", "--version"] emptySettings
      = ⟨{ emptySettings with versionRequested := true, cipherType := [CipherType.Caesar],
                              cipherKey := [""] }, Completion.returned false⟩ := by
  simp only [processCommandLine_cons]
  decide

/-- C9 (amended): whenever the scan encounters `-h`/`--help` or `--version` as a
flag (the tokens before it were scanned without error, leaving the configuration
`s` and the expected count `n`), scanning stops, and the post-scan
reconciliation and count check still run on what was collected before the
flag: the configuration is `s` with the indicator set and with the
single-cipher defaults added, and parsing succeeds exactly when the numbers of
kinds and keys after defaulting both equal `n`; otherwise it fails with
InvalidArgument.  The tokens after the flag play no part. -/
theorem C9_reconciliation_runs_after_flag (prog flag : String) (pre rest : List String)
    (s : ProgramSettings) (n : Nat)
    (hflag : flag = "-h" ∨ flag = "--help" ∨ flag = "--version")
    (hscan : processLoop (prog :: pre) 1 emptySettings 1 = ⟨s, n, none⟩)
    (hh : s.helpRequested = false) (hv : s.versionRequested = false) :
    processCommandLine (prog :: (pre ++ flag :: rest)) emptySettings
      = ⟨setIndicator flag (withDefaults s n),
          if (withDefaults s n).cipherType.length ≠ n ∨ (withDefaults s n).cipherKey.length ≠ n
          then Completion.threw (Exception.InvalidArgument
            ("expected types and keys for " ++ toString n ++ " ciphers\n"
              ++ "        but received " ++ toString (withDefaults s n).cipherType.length
              ++ " types and " ++ toString (withDefaults s n).cipherKey.length ++ " keys"))
          else Completion.returned false⟩ := by
  rw [processLoop_cons] at hscan
  rw [processCommandLine_cons,
    scan_append_indicator flag rest hflag pre emptySettings 1 (by rw [hscan])
      (by rw [hscan]; exact hh) (by rw [hscan]; exact hv),
    hscan, afterLoop_setIndicator, afterLoop_settings _ rfl, afterLoop_completion _ rfl]

/-- C9 (amended), applied: `--multi-cipher 2 --help --bogus` stops at `--help`
and fails the count check. -/
theorem C9_reconciliation_runs_after_flag_witness :
    processLoop ["mpags-cipher", "--multi-cipher", "2"] 1 emptySettings 1
      = ⟨emptySettings, 2, none⟩ ∧
    processCommandLine ["mpags-cipher", "--multi-cipher", "2", "--help", "--bogus"]
        emptySettings
      = ⟨{ emptySettings with helpRequested := true },
          Completion.threw (Exception.InvalidArgument
            "expected types and keys for 2 ciphers\n        but received 0 types and 0 keys")⟩ :=
  have hscan : processLoop ["mpags-cipher", "--multi-cipher", "2"] 1 emptySettings 1
      = ⟨emptySettings, 2, none⟩ := by
    rw [processLoop_cons]; decide
  ⟨hscan, C9_reconciliation_runs_after_flag "mpags-cipher" "--help" ["--multi-cipher", "2"]
    ["--bogus"] emptySettings 2 (Or.inr (Or.inl rfl)) hscan rfl rfl⟩

/-! ### A token reached by the scan -/

/-- When the scan of `pre` ends normally (no exception, no `break`), the scan of
`pre ++ l` continues with `l` in the state in which the scan of `pre` ended. -/
theorem scan_append (l : List String) (pre : List String) :
    ∀ (s : ProgramSettings) (n : Nat),
      (scan pre s n).thrown = none →
      (scan pre s n).settings.helpRequested = false →
      (scan pre s n).settings.versionRequested = false →
      scan (pre ++ l) s n
        = scan l (scan pre s n).settings (scan pre s n).nExpectedCiphers := by
  induction pre using tokens_induction with
  | h0 => intro s n _ _ _; simp [scan]
  | h1 a =>
    intro s n ht hh hv
    rcases flag_cases a with h | h | h | h | h | h | h | h | h | h | h
    · subst h; simp [scan_h] at hh
    · subst h; simp [scan_help] at hh
    · subst h; simp [scan_version] at hv
    · subst h; simp [scan_multi_cipher_last] at ht
    · subst h; simp [scan_i_last] at ht
    · subst h; simp [scan_o_last] at ht
    · subst h; simp [scan_k_last] at ht
    · subst h; simp [scan_encrypt, scan]
    · subst h; simp [scan_decrypt, scan]
    · subst h; simp [scan_c_last] at ht
    · simp [scan_unknown _ _ _ _ h] at ht
  | h2 a b pre ih1 ih2 =>
    intro s n ht hh hv
    rcases flag_cases a with h | h | h | h | h | h | h | h | h | h | h
    · subst h; simp [scan_h] at hh
    · subst h; simp [scan_help] at hh
    · subst h; simp [scan_version] at hv
    · subst h
      simp only [List.cons_append, scan_multi_cipher] at ht hh hv ⊢
      split_ifs at ht hh hv ⊢ with he
      cases hs : stoul b with
      | error e => simp [hs] at ht
      | ok m =>
        simp only [hs] at ht hh hv ⊢
        exact ih1 _ _ ht hh hv
    · subst h
      simp only [List.cons_append, scan_i] at ht hh hv ⊢
      exact ih1 _ _ ht hh hv
    · subst h
      simp only [List.cons_append, scan_o] at ht hh hv ⊢
      exact ih1 _ _ ht hh hv
    · subst h
      simp only [List.cons_append, scan_k] at ht hh hv ⊢
      exact ih1 _ _ ht hh hv
    · subst h
      simp only [List.cons_append, scan_encrypt] at ht hh hv ⊢
      exact ih2 _ _ ht hh hv
    · subst h
      simp only [List.cons_append, scan_decrypt] at ht hh hv ⊢
      exact ih2 _ _ ht hh hv
    · subst h
      simp only [List.cons_append, scan_c] at ht hh hv ⊢
      split_ifs at ht hh hv ⊢
      · exact ih1 _ _ ht hh hv
      · exact ih1 _ _ ht hh hv
      · exact ih1 _ _ ht hh hv
    · simp [scan_unknown _ _ _ _ h] at ht

/-- The call on `prog :: (pre ++ l)`, for tokens `pre` whose scan from the empty
configuration ends normally in the state `(s, n)`. -/
theorem processCommandLine_append (prog : String) (pre l : List String)
    (s : ProgramSettings) (n : Nat)
    (hscan : processLoop (prog :: pre) 1 emptySettings 1 = ⟨s, n, none⟩)
    (hh : s.helpRequested = false) (hv : s.versionRequested = false) :
    processCommandLine (prog :: (pre ++ l)) emptySettings = afterLoop (scan l s n) := by
  rw [processLoop_cons] at hscan
  rw [processCommandLine_cons,
    scan_append l pre emptySettings 1 (by rw [hscan]) (by rw [hscan]; exact hh)
      (by rw [hscan]; exact hv), hscan]

/-- C11: for each value-requiring flag `f` among `-i`, `-o`, `-k`, `-c`,
`--multi-cipher` and every token sequence whose scan reaches `f` in flag
position as the final token (the tokens `pre` before it are scanned without
error and without help or version, ending in the configuration `s`), parsing
fails with MissingArgument, the configuration being left as `s`; in particular
`[prog, f]` fails with MissingArgument. -/
theorem C11_value_flag_last_is_missing (prog f : String) (pre : List String)
    (s : ProgramSettings) (n : Nat)
    (hf : f = "-i" ∨ f = "-o" ∨ f = "-k" ∨ f = "-c" ∨ f = "--multi-cipher")
    (hscan : processLoop (prog :: pre) 1 emptySettings 1 = ⟨s, n, none⟩)
    (hh : s.helpRequested = false) (hv : s.versionRequested = false) :
    (∃ msg : String,
      processCommandLine (prog :: (pre ++ [f])) emptySettings
        = ⟨s, Completion.threw (Exception.MissingArgument msg)⟩) ∧
    (∃ msg : String,
      processCommandLine [prog, f] emptySettings
        = ⟨emptySettings, Completion.threw (Exception.MissingArgument msg)⟩) := by
  constructor
  · rw [processCommandLine_append prog pre [f] s n hscan hh hv]
    rcases hf with h | h | h | h | h <;> subst h
    · exact ⟨_, by rw [scan_i_last, afterLoop_thrown _ _ rfl]⟩
    · exact ⟨_, by rw [scan_o_last, afterLoop_thrown _ _ rfl]⟩
    · exact ⟨_, by rw [scan_k_last, afterLoop_thrown _ _ rfl]⟩
    · exact ⟨_, by rw [scan_c_last, afterLoop_thrown _ _ rfl]⟩
    · exact ⟨_, by rw [scan_multi_cipher_last, afterLoop_thrown _ _ rfl]⟩
  · rw [processCommandLine_cons]
    rcases hf with h | h | h | h | h <;> subst h
    · exact ⟨_, by rw [scan_i_last, afterLoop_thrown _ _ rfl]⟩
    · exact ⟨_, by rw [scan_o_last, afterLoop_thrown _ _ rfl]⟩
    · exact ⟨_, by rw [scan_k_last, afterLoop_thrown _ _ rfl]⟩
    · exact ⟨_, by rw [scan_c_last, afterLoop_thrown _ _ rfl]⟩
    · exact ⟨_, by rw [scan_multi_cipher_last, afterLoop_thrown _ _ rfl]⟩

/-- C11, applied: `-k` as the last token after `-c caesar`. -/
theorem C11_value_flag_last_is_missing_witness :
    processLoop ["mpags-cipher", "-c", "caesar"] 1 emptySettings 1
      = ⟨{ emptySettings with cipherType := [CipherType.Caesar] }, 1, none⟩ ∧
    (∃ msg : String,
      processCommandLine ["mpags-cipher", "-c", "caesar", "-k"] emptySettings
        = ⟨{ emptySettings with cipherType := [CipherType.Caesar] },
            Completion.threw (Exception.MissingArgument msg)⟩) ∧
    (∃ msg : String,
      processCommandLine ["mpags-cipher", "-k"] emptySettings
        = ⟨emptySettings, Completion.threw (Exception.MissingArgument msg)⟩) :=
  have hscan : processLoop ["mpags-cipher", "-c", "caesar"] 1 emptySettings 1
      = ⟨{ emptySettings with cipherType := [CipherType.Caesar] }, 1, none⟩ := by
    rw [processLoop_cons]; decide
  ⟨hscan, C11_value_flag_last_is_missing "mpags-cipher" "-k" ["-c", "caesar"] _ 1
    (Or.inr (Or.inr (Or.inl rfl))) hscan rfl rfl⟩

/-- C12 (defect of the code): `--multi-cipher` followed by a non-empty token
that is not the decimal representation of a non-negative integer is accepted
whenever the token starts, after optional white space and an optional sign,
with a digit: `1x`, ` 1` and `+1` are read as 1 and parsing succeeds, and `2x`
is read as 2, so that parsing fails only for the count mismatch and succeeds
once two ciphers are given. -/
theorem C12_non_numeric_count_accepted :
    processCommandLine ["mpags-cipher", "--multi-cipher", "1x"] emptySettings
      = ⟨{ emptySettings with cipherType := [CipherType.Caesar], cipherKey := [""] },
          Completion.returned false⟩ ∧
    processCommandLine ["mpags-cipher", "--multi-cipher", " 1"] emptySettings
      = ⟨{ emptySettings with cipherType := [CipherType.Caesar], cipherKey := [""] },
          Completion.returned false⟩ ∧
    processCommandLine ["mpags-cipher", "--multi-cipher", "+1"] emptySettings
      = ⟨{ emptySettings with cipherType := [CipherType.Caesar], cipherKey := [""] },
          Completion.returned false⟩ ∧
    processCommandLine
        ["mpags-cipher", "--multi-cipher", "2x", "-c", "caesar", "-k", "3", "-c", "vigenere",
          "-k", "key"] emptySettings
      = ⟨{ emptySettings with cipherType := [CipherType.Caesar, CipherType.Vigenere],
                              cipherKey := ["3", "key"] },
          Completion.returned false⟩ := by
  simp only [processCommandLine_cons]
  decide

/-- C13 as stated fails: `--multi-cipher` followed by the empty token fails with
MissingArgument, not with InvalidArgument. -/
theorem C13_empty_count_counterexample :
    (processCommandLine ["mpags-cipher", "--multi-cipher", ""] emptySettings).completion
      = Completion.threw
          (Exception.MissingArgument "--multi-cipher requires a positive integer argument") ∧
    ∀ msg : String,
      (processCommandLine ["mpags-cipher", "--multi-cipher", ""] emptySettings).completion
        ≠ Completion.threw (Exception.InvalidArgument msg) := by
  have h : (processCommandLine ["mpags-cipher", "--multi-cipher", ""] emptySettings).completion
      = Completion.threw
          (Exception.MissingArgument "--multi-cipher requires a positive integer argument") := by
    rw [processCommandLine_cons]; decide
  refine ⟨h, ?_⟩
  intro msg hc
  rw [h] at hc
  cases hc

/-- C13 (amended): for every token sequence in which the scan reaches
`--multi-cipher` followed by an empty-string token, parsing fails with
MissingArgument, whatever tokens follow; the configuration is left as the
tokens before the flag made it. -/
theorem C13_empty_count_is_missing (prog : String) (pre rest : List String)
    (s : ProgramSettings) (n : Nat)
    (hscan : processLoop (prog :: pre) 1 emptySettings 1 = ⟨s, n, none⟩)
    (hh : s.helpRequested = false) (hv : s.versionRequested = false) :
    processCommandLine (prog :: (pre ++ "--multi-cipher" :: "" :: rest)) emptySettings
      = ⟨s, Completion.threw
          (Exception.MissingArgument "--multi-cipher requires a positive integer argument")⟩ := by
  rw [processCommandLine_append prog pre _ s n hscan hh hv, scan_multi_cipher]
  have he : "".isEmpty = true := by decide
  rw [if_pos he, afterLoop_thrown _ _ rfl]

/-- C13 (amended), applied: an empty count after `--decrypt`, followed by more
tokens. -/
theorem C13_empty_count_is_missing_witness :
    processLoop ["mpags-cipher", "--decrypt"] 1 emptySettings 1
      = ⟨{ emptySettings with cipherMode := CipherMode.Decrypt }, 1, none⟩ ∧
    processCommandLine ["mpags-cipher", "--decrypt", "--multi-cipher", "", "-k", "3"]
        emptySettings
      = ⟨{ emptySettings with cipherMode := CipherMode.Decrypt },
          Completion.threw
            (Exception.MissingArgument "--multi-cipher requires a positive integer argument")⟩ :=
  have hscan : processLoop ["mpags-cipher", "--decrypt"] 1 emptySettings 1
      = ⟨{ emptySettings with cipherMode := CipherMode.Decrypt }, 1, none⟩ := by
    rw [processLoop_cons]; decide
  ⟨hscan, C13_empty_count_is_missing "mpags-cipher" ["--decrypt"] ["-k", "3"] _ 1 hscan rfl rfl⟩

/-- C15: for every token sequence, if the scan reaches in flag position a token
that is none of `-h`, `--help`, `--version`, `--multi-cipher`, `-i`, `-o`, `-k`,
`--encrypt`, `--decrypt`, `-c`, parsing fails with InvalidArgument (the message
names the token), whatever tokens follow. -/
theorem C15_unknown_flag_is_invalid (prog a : String) (pre rest : List String)
    (s : ProgramSettings) (n : Nat)
    (hscan : processLoop (prog :: pre) 1 emptySettings 1 = ⟨s, n, none⟩)
    (hh : s.helpRequested = false) (hv : s.versionRequested = false)
    (ha : a ≠ "-h" ∧ a ≠ "--help" ∧ a ≠ "--version" ∧ a ≠ "--multi-cipher" ∧ a ≠ "-i" ∧
        a ≠ "-o" ∧ a ≠ "-k" ∧ a ≠ "--encrypt" ∧ a ≠ "--decrypt" ∧ a ≠ "-c") :
    processCommandLine (prog :: (pre ++ a :: rest)) emptySettings
      = ⟨s, Completion.threw
          (Exception.InvalidArgument ("unknown argument \x27" ++ a ++ "\x27"))⟩ := by
  rw [processCommandLine_append prog pre _ s n hscan hh hv, scan_unknown a rest s n ha,
    afterLoop_thrown _ _ rfl]

/-- C15, applied: the unknown token `--bogus` after `-k 3`. -/
theorem C15_unknown_flag_is_invalid_witness :
    processLoop ["mpags-cipher", "-k", "3"] 1 emptySettings 1
      = ⟨{ emptySettings with cipherKey := ["3"] }, 1, none⟩ ∧
    processCommandLine ["mpags-cipher", "-k", "3", "--bogus", "--help"] emptySettings
      = ⟨{ emptySettings with cipherKey := ["3"] },
          Completion.threw (Exception.InvalidArgument "unknown argument \x27--bogus\x27")⟩ :=
  have hscan : processLoop ["mpags-cipher", "-k", "3"] 1 emptySettings 1
      = ⟨{ emptySettings with cipherKey := ["3"] }, 1, none⟩ := by
    rw [processLoop_cons]; decide
  ⟨hscan, C15_unknown_flag_is_invalid "mpags-cipher" "--bogus" ["-k", "3"] ["--help"] _ 1
    hscan rfl rfl (by decide)⟩

/-- The call on `[prog, -c, name]`, by cases on the name. -/
theorem processCommandLine_c_name (prog name : String) :
    processCommandLine [prog, "-c", name] emptySettings
      = if name = "caesar" then
          ⟨{ emptySettings with cipherType := [CipherType.Caesar], cipherKey := [""] },
            Completion.returned false⟩
        else if name = "playfair" then
          ⟨{ emptySettings with cipherType := [CipherType.Playfair], cipherKey := [""] },
            Completion.returned false⟩
        else if name = "vigenere" then
          ⟨{ emptySettings with cipherType := [CipherType.Vigenere], cipherKey := [""] },
            Completion.returned false⟩
        else
          ⟨emptySettings, Completion.threw
            (Exception.InvalidArgument ("unknown cipher \x27" ++ name ++ "\x27"))⟩ := by
  rw [processCommandLine_cons, scan_c]
  split_ifs <;> simp [scan, afterLoop, emptySettings]

/-- C14: for every string `name`, parsing `[prog, -c, name]` from the empty
configuration fails with InvalidArgument if and only if `name` is not exactly
one of `caesar`, `playfair`, `vigenere`; for these three names it succeeds with
a kind sequence of exactly one element, Caesar, Playfair or Vigenere
respectively. -/
theorem C14_cipher_name_decides (prog name : String) :
    ((∃ msg : String,
        (processCommandLine [prog, "-c", name] emptySettings).completion
          = Completion.threw (Exception.InvalidArgument msg))
      ↔ ¬ (name = "caesar" ∨ name = "playfair" ∨ name = "vigenere")) ∧
    (processCommandLine [prog, "-c", "caesar"] emptySettings).completion
      = Completion.returned false ∧
    (processCommandLine [prog, "-c", "caesar"] emptySettings).settings.cipherType
      = [CipherType.Caesar] ∧
    (processCommandLine [prog, "-c", "playfair"] emptySettings).completion
      = Completion.returned false ∧
    (processCommandLine [prog, "-c", "playfair"] emptySettings).settings.cipherType
      = [CipherType.Playfair] ∧
    (processCommandLine [prog, "-c", "vigenere"] emptySettings).completion
      = Completion.returned false ∧
    (processCommandLine [prog, "-c", "vigenere"] emptySettings).settings.cipherType
      = [CipherType.Vigenere] := by
  refine ⟨?_, ?_, ?_, ?_, ?_, ?_, ?_⟩
  · rw [processCommandLine_c_name]
    constructor
    · rintro ⟨msg, h⟩ hn
      rcases hn with hn | hn | hn <;> subst hn <;> simp at h
    · intro hn
      push_neg at hn
      obtain ⟨h1, h2, h3⟩ := hn
      rw [if_neg h1, if_neg h2, if_neg h3]
      exact ⟨_, rfl⟩
  all_goals rw [processCommandLine_c_name]; simp

/-! ### Input source, output sink and mode -/

/-- When the loop is left without an exception, the input file, the output file
and the mode are those of the last `-i`, `-o` and `--encrypt`/`--decrypt`
processed. -/
theorem scan_files_and_mode (l : List String) :
    ∀ (s : ProgramSettings) (n : Nat), (scan l s n).thrown = none →
      (scan l s n).settings.inputFile = lastValueOf "-i" l s.inputFile ∧
      (scan l s n).settings.outputFile = lastValueOf "-o" l s.outputFile ∧
      (scan l s n).settings.cipherMode = lastMode l s.cipherMode := by
  induction l using tokens_induction with
  | h0 => intro s n _; exact ⟨rfl, rfl, rfl⟩
  | h1 a =>
    intro s n
    rcases flag_cases a with h | h | h | h | h | h | h | h | h | h | h
    · subst h; simp [scan_h, lastValueOf, lastMode]
    · subst h; simp [scan_help, lastValueOf, lastMode]
    · subst h; simp [scan_version, lastValueOf, lastMode]
    · subst h; simp [scan_multi_cipher_last]
    · subst h; simp [scan_i_last]
    · subst h; simp [scan_o_last]
    · subst h; simp [scan_k_last]
    · subst h; simp [scan_encrypt, scan, lastValueOf, lastMode]
    · subst h; simp [scan_decrypt, scan, lastValueOf, lastMode]
    · subst h; simp [scan_c_last]
    · simp [scan_unknown _ _ _ _ h]
  | h2 a b rest ih1 ih2 =>
    intro s n
    rcases flag_cases a with h | h | h | h | h | h | h | h | h | h | h
    · subst h; simp [scan_h, lastValueOf, lastMode]
    · subst h; simp [scan_help, lastValueOf, lastMode]
    · subst h; simp [scan_version, lastValueOf, lastMode]
    · subst h
      rw [scan_multi_cipher]
      have e1 : ∀ (flag cur : String), flag ≠ "--multi-cipher" →
          lastValueOf flag ("--multi-cipher" :: b :: rest) cur = lastValueOf flag rest cur := by
        intro flag cur hne
        simp [lastValueOf, Ne.symm hne]
      have e2 : ∀ cur : CipherMode,
          lastMode ("--multi-cipher" :: b :: rest) cur = lastMode rest cur := by
        intro cur; simp [lastMode]
      rw [e1 "-i" _ (by decide), e1 "-o" _ (by decide), e2]
      split_ifs with he
      · simp
      · cases hs : stoul b with
        | error e => simp
        | ok m => exact fun ht => ih1 _ _ ht
    · subst h
      rw [scan_i]
      intro ht
      obtain ⟨h1, h2, h3⟩ := ih1 _ _ ht
      rw [h1, h2, h3]
      simp [lastValueOf, lastMode]
    · subst h
      rw [scan_o]
      intro ht
      obtain ⟨h1, h2, h3⟩ := ih1 _ _ ht
      rw [h1, h2, h3]
      simp [lastValueOf, lastMode]
    · subst h
      rw [scan_k]
      intro ht
      obtain ⟨h1, h2, h3⟩ := ih1 _ _ ht
      rw [h1, h2, h3]
      simp [lastValueOf, lastMode]
    · subst h
      rw [scan_encrypt]
      intro ht
      obtain ⟨h1, h2, h3⟩ := ih2 _ _ ht
      rw [h1, h2, h3]
      simp [lastValueOf, lastMode]
    · subst h
      rw [scan_decrypt]
      intro ht
      obtain ⟨h1, h2, h3⟩ := ih2 _ _ ht
      rw [h1, h2, h3]
      simp [lastValueOf, lastMode]
    · subst h
      rw [scan_c]
      have e1 : ∀ (flag cur : String), flag ≠ "-c" →
          lastValueOf flag ("-c" :: b :: rest) cur = lastValueOf flag rest cur := by
        intro flag cur hne
        simp [lastValueOf, Ne.symm hne]
      have e2 : ∀ cur : CipherMode, lastMode ("-c" :: b :: rest) cur = lastMode rest cur := by
        intro cur; simp [lastMode]
      rw [e1 "-i" _ (by decide), e1 "-o" _ (by decide), e2]
      split_ifs
      · exact fun ht => ih1 _ _ ht
      · exact fun ht => ih1 _ _ ht
      · exact fun ht => ih1 _ _ ht
      · simp
    · simp [scan_unknown _ _ _ _ h]

/-- One iteration of the loop at a flag that takes a value: the iteration at
index `pre.length` is followed by the one at index `pre.length + 2`. -/
theorem processLoop_skip_two (pre : List String) (flag value : String) (rest : List String)
    (s : ProgramSettings) (n : Nat) :
    processLoop (pre ++ flag :: value :: rest) (pre.length + 1 + 1) s n = scan rest s n := by
  have h := processLoop_append (pre ++ [flag, value]) rest s n
  simpa using h

/-- One iteration of the loop at a flag without value: the iteration at index
`pre.length` is followed by the one at index `pre.length + 1`. -/
theorem processLoop_skip_one (pre : List String) (flag : String) (rest : List String)
    (s : ProgramSettings) (n : Nat) :
    processLoop (pre ++ flag :: rest) (pre.length + 1) s n = scan rest s n := by
  have h := processLoop_append (pre ++ [flag]) rest s n
  simpa using h

/-- C17: in every successful parse from the empty configuration, the input
source is the token following the last `-i` processed as a flag (empty if none),
the output sink is the token following the last `-o` processed (empty if
none), and the mode is that of the last `--encrypt`/`--decrypt` processed
(Encrypt if none).  Moreover one loop iteration at `-i`, `-o`, `--encrypt` or
`--decrypt` continues the loop with no field changed other than its own and with
`nExpectedCiphers` unchanged. -/
theorem C17_files_and_mode (cmdLineArgs : List String) (value : Bool)
    (h : (processCommandLine cmdLineArgs emptySettings).completion
      = Completion.returned value) :
    ((processCommandLine cmdLineArgs emptySettings).settings.inputFile
        = lastValueOf "-i" cmdLineArgs.tail "" ∧
      (processCommandLine cmdLineArgs emptySettings).settings.outputFile
        = lastValueOf "-o" cmdLineArgs.tail "" ∧
      (processCommandLine cmdLineArgs emptySettings).settings.cipherMode
        = lastMode cmdLineArgs.tail CipherMode.Encrypt) ∧
    (∀ (pre rest : List String) (file : String) (s : ProgramSettings) (n : Nat),
      processLoop (pre ++ "-i" :: file :: rest) pre.length s n
        = processLoop (pre ++ "-i" :: file :: rest) (pre.length + 1 + 1)
            { s with inputFile := file } n) ∧
    (∀ (pre rest : List String) (file : String) (s : ProgramSettings) (n : Nat),
      processLoop (pre ++ "-o" :: file :: rest) pre.length s n
        = processLoop (pre ++ "-o" :: file :: rest) (pre.length + 1 + 1)
            { s with outputFile := file } n) ∧
    (∀ (pre rest : List String) (s : ProgramSettings) (n : Nat),
      processLoop (pre ++ "--encrypt" :: rest) pre.length s n
        = processLoop (pre ++ "--encrypt" :: rest) (pre.length + 1)
            { s with cipherMode := CipherMode.Encrypt } n) ∧
    (∀ (pre rest : List String) (s : ProgramSettings) (n : Nat),
      processLoop (pre ++ "--decrypt" :: rest) pre.length s n
        = processLoop (pre ++ "--decrypt" :: rest) (pre.length + 1)
            { s with cipherMode := CipherMode.Decrypt } n) := by
  refine ⟨?_, ?_, ?_, ?_, ?_⟩
  · obtain ⟨ht, -, -⟩ := afterLoop_returned _ value h
    rw [processCommandLine, afterLoop_settings _ ht]
    cases cmdLineArgs with
    | nil => rw [processLoop_nil]; exact ⟨rfl, rfl, rfl⟩
    | cons prog rest =>
      rw [processLoop_cons] at ht ⊢
      exact scan_files_and_mode rest emptySettings 1 ht
  · intro pre rest file s n
    rw [processLoop_append, processLoop_skip_two, scan_i]
  · intro pre rest file s n
    rw [processLoop_append, processLoop_skip_two, scan_o]
  · intro pre rest s n
    rw [processLoop_append, processLoop_skip_one, scan_encrypt]
  · intro pre rest s n
    rw [processLoop_append, processLoop_skip_one, scan_decrypt]

/-- C17, applied: the later `-i` and the later mode flag win, the output file is
the one given. -/
theorem C17_files_and_mode_witness :
    (processCommandLine
        ["mpags-cipher", "-i", "a.txt", "--decrypt", "-o", "out.txt", "-i", "b.txt", "--encrypt"]
        emptySettings).completion = Completion.returned false ∧
    (processCommandLine
        ["mpags-cipher", "-i", "a.txt", "--decrypt", "-o", "out.txt", "-i", "b.txt", "--encrypt"]
        emptySettings).settings.inputFile = "b.txt" ∧
    lastValueOf "-i"
        ["-i", "a.txt", "--decrypt", "-o", "out.txt", "-i", "b.txt", "--encrypt"] ""
      = "b.txt" ∧
    lastValueOf "-o"
        ["-i", "a.txt", "--decrypt", "-o", "out.txt", "-i", "b.txt", "--encrypt"] ""
      = "out.txt" ∧
    lastMode ["-i", "a.txt", "--decrypt", "-o", "out.txt", "-i", "b.txt", "--encrypt"]
        CipherMode.Encrypt = CipherMode.Encrypt :=
  have h : (processCommandLine
        ["mpags-cipher", "-i", "a.txt", "--decrypt", "-o", "out.txt", "-i", "b.txt", "--encrypt"]
        emptySettings).completion = Completion.returned false := by
    rw [processCommandLine_cons]; decide
  have hi : lastValueOf "-i"
        ["-i", "a.txt", "--decrypt", "-o", "out.txt", "-i", "b.txt", "--encrypt"] ""
      = "b.txt" := by decide
  ⟨h, ((C17_files_and_mode _ false h).1.1).trans hi, hi, by decide, by decide⟩

/-! ### The chunks really handed to the workers -/

theorem take_drop_take (l : List Char) (p k m : Nat) (h : k + p ≤ m) :
    ((l.take m).drop k).take p = (l.drop k).take p := by
  rw [List.drop_take, List.take_take]
  congr 1
  omega

/-- The four pieces of a text, concatenated, are its first `4 * p` characters. -/
theorem four_pieces_take (l : List Char) (p : Nat) (hp : 4 * p ≤ l.length) :
    (l.drop (p * 0)).take p ++ (l.drop (p * 1)).take p ++ (l.drop (p * 2)).take p
      ++ (l.drop (p * 3)).take p = l.take (4 * p) := by
  have hl : (l.take (4 * p)).length = 4 * p := by simp; omega
  have h := four_pieces_cover (l.take (4 * p)) p hl
  rw [take_drop_take l p (p * 0) (4 * p) (by omega), take_drop_take l p (p * 1) (4 * p) (by omega),
    take_drop_take l p (p * 2) (4 * p) (by omega),
    take_drop_take l p (p * 3) (4 * p) (by omega)] at h
  exact h

/-- C20: for every text of length n and every chunk index i in 0..3, the guard
`start + partSize > length` does not hold and the chunk given to worker i is the
substring of length exactly floor(n/4) starting at offset i*floor(n/4); the
chunks, concatenated, are exactly the first 4*floor(n/4) characters, the
remaining n mod 4 characters reach no worker, and for n < 4 the chunk is
empty. -/
theorem C20_chunks_are_floor_quarters (text : String) (i : Nat) (hi : i < 4) :
    ¬ (main.start text i + main.partSize text > text.length) ∧
    main.currentPartSize text i = text.length / 4 ∧
    main.chunk text i
      = some ⟨(text.data.drop (i * (text.length / 4))).take (text.length / 4)⟩ ∧
    ((text.data.drop (i * (text.length / 4))).take (text.length / 4)).length
      = text.length / 4 ∧
    (main.chunks text).map String.join = some ⟨text.data.take (4 * (text.length / 4))⟩ ∧
    (text.data.drop (4 * (text.length / 4))).length = text.length % 4 ∧
    (text.length < 4 → main.chunk text i = some "") := by
  have hr := main.chunk_in_range text i hi
  have hg : ¬ (main.start text i + main.partSize text > text.length) := by omega
  have hc := main.chunk_eq text i hi
  have hp : main.partSize text = text.length / 4 := rfl
  have hlen : text.data.length = text.length := rfl
  rw [hp, Nat.mul_comm] at hc
  refine ⟨hg, ?_, hc, ?_, ?_, ?_, ?_⟩
  · simp only [main.currentPartSize, hg, if_false]
    rfl
  · rw [List.length_take, List.length_drop, hlen]
    have : i * (text.length / 4) + text.length / 4 ≤ text.length := by
      interval_cases i <;> omega
    omega
  · rw [main.chunks_eq]
    simp only [Option.map_some', String.join, List.foldl, main.piece, hp]
    congr 1
    apply String.ext
    simp only [String.data_append]
    have h4 := four_pieces_take text.data (text.length / 4) (by rw [hlen]; omega)
    simpa using h4
  · rw [List.length_drop, hlen]
    omega
  · intro hn
    rw [hc]
    have h0 : text.length / 4 = 0 := by omega
    simp [h0]

/-- C20, applied to the text `abcde` and the last chunk index: the chunk is `d`
and the character `e` is left over. -/
theorem C20_chunks_are_floor_quarters_witness :
    3 < 4 ∧ main.chunk "abcde" 3 = some "d" ∧
    (main.chunks "abcde").map String.join = some "abcd" ∧
    ("abcde".data.drop (4 * ("abcde".length / 4))).length = 1 :=
  have h := C20_chunks_are_floor_quarters "abcde" 3 (by decide)
  ⟨by decide, h.2.2.1, h.2.2.2.2.1, h.2.2.2.2.2.1⟩

/-! ### What a failing call leaves behind -/

/-- Of the exceptions the embedding represents, the loop throws only
MissingArgument and InvalidArgument: it throws no InvalidKey and makes no access
outside the vector.  (The `std::length_error` that `reserve` can throw is not
represented, see the conventions at the head of the file.) -/
theorem scan_thrown_typed (l : List String) :
    ∀ (s : ProgramSettings) (n : Nat) (e : Exception), (scan l s n).thrown = some e →
      (∃ msg : String, e = Exception.MissingArgument msg) ∨
      (∃ msg : String, e = Exception.InvalidArgument msg) := by
  induction l using tokens_induction with
  | h0 => intro s n e h; simp [scan] at h
  | h1 a =>
    intro s n e
    rcases flag_cases a with h | h | h | h | h | h | h | h | h | h | h
    · subst h; simp [scan_h]
    · subst h; simp [scan_help]
    · subst h; simp [scan_version]
    · subst h; rw [scan_multi_cipher_last]; intro he; exact Or.inl ⟨_, (Option.some.inj he).symm⟩
    · subst h; rw [scan_i_last]; intro he; exact Or.inl ⟨_, (Option.some.inj he).symm⟩
    · subst h; rw [scan_o_last]; intro he; exact Or.inl ⟨_, (Option.some.inj he).symm⟩
    · subst h; rw [scan_k_last]; intro he; exact Or.inl ⟨_, (Option.some.inj he).symm⟩
    · subst h; simp [scan_encrypt, scan]
    · subst h; simp [scan_decrypt, scan]
    · subst h; rw [scan_c_last]; intro he; exact Or.inl ⟨_, (Option.some.inj he).symm⟩
    · rw [scan_unknown _ _ _ _ h]; intro he; exact Or.inr ⟨_, (Option.some.inj he).symm⟩
  | h2 a b rest ih1 ih2 =>
    intro s n e
    rcases flag_cases a with h | h | h | h | h | h | h | h | h | h | h
    · subst h; simp [scan_h]
    · subst h; simp [scan_help]
    · subst h; simp [scan_version]
    · subst h
      rw [scan_multi_cipher]
      split_ifs with he
      · intro hx; exact Or.inl ⟨_, (Option.some.inj hx).symm⟩
      · cases hs : stoul b with
        | error x => intro hx; exact Or.inr ⟨_, (Option.some.inj hx).symm⟩
        | ok m => exact fun hx => ih1 _ _ _ hx
    · subst h; rw [scan_i]; exact fun hx => ih1 _ _ _ hx
    · subst h; rw [scan_o]; exact fun hx => ih1 _ _ _ hx
    · subst h; rw [scan_k]; exact fun hx => ih1 _ _ _ hx
    · subst h; rw [scan_encrypt]; exact fun hx => ih2 _ _ _ hx
    · subst h; rw [scan_decrypt]; exact fun hx => ih2 _ _ _ hx
    · subst h
      rw [scan_c]
      split_ifs
      · exact fun hx => ih1 _ _ _ hx
      · exact fun hx => ih1 _ _ _ hx
      · exact fun hx => ih1 _ _ _ hx
      · intro hx; exact Or.inr ⟨_, (Option.some.inj hx).symm⟩
    · rw [scan_unknown _ _ _ _ h]; intro hx; exact Or.inr ⟨_, (Option.some.inj hx).symm⟩

/-- C16 as stated fails: after `-k x --bogus` the call throws InvalidArgument and
the caller's configuration has the key `x`; after `--decrypt --multi-cipher 2`
the call throws InvalidArgument for the count mismatch and the caller's
configuration has the mode Decrypt.  In both cases the configuration is not
what it was before the call. -/
theorem C16_partial_configuration_counterexample :
    (processCommandLine ["mpags-cipher", "-k", "x", "--bogus"] emptySettings
        = ⟨{ emptySettings with cipherKey := ["x"] },
            Completion.threw (Exception.InvalidArgument "unknown argument \x27--bogus\x27")⟩ ∧
      (processCommandLine ["mpags-cipher", "-k", "x", "--bogus"] emptySettings).settings
        ≠ emptySettings) ∧
    (processCommandLine ["mpags-cipher", "--decrypt", "--multi-cipher", "2"] emptySettings
        = ⟨{ emptySettings with cipherMode := CipherMode.Decrypt },
            Completion.threw (Exception.InvalidArgument
              "expected types and keys for 2 ciphers\n        but received 0 types and 0 keys")⟩ ∧
      (processCommandLine ["mpags-cipher", "--decrypt", "--multi-cipher", "2"]
          emptySettings).settings ≠ emptySettings) := by
  simp only [processCommandLine_cons]
  decide

/-- C16 (amended): whenever `processCommandLine` fails with MissingArgument or
InvalidArgument, the caller's configuration, which is updated in place, is not
restored.  (1) If the error is raised while scanning: the tokens `pre` are
scanned without error (and without help or version), ending in the
configuration `s`, and the scan of the tokens `bad` from `s` throws the
MissingArgument or InvalidArgument `e` without changing `s`; then the call on
`pre ++ bad` throws `e` and leaves the caller with exactly `s`, so every field
set and every list extended by `pre` is kept.  (2) If the error is raised by the
count check after the scan: the scan ends without error in the configuration
`s` with expected count `n` and the counts after defaulting differ from `n`;
then the call throws InvalidArgument and leaves the caller with `s` and the
single-cipher defaults added.  An exception of another kind, such as the
`std::length_error` of `reserve` for a count above `max_size()`, is outside
this statement. -/
theorem C16_failure_keeps_scanned_fields :
    (∀ (prog : String) (pre bad : List String) (s : ProgramSettings) (n : Nat) (e : Exception),
      processLoop (prog :: pre) 1 emptySettings 1 = ⟨s, n, none⟩ →
      s.helpRequested = false → s.versionRequested = false →
      processLoop (prog :: bad) 1 s n = ⟨s, n, some e⟩ →
      ((∃ msg : String, e = Exception.MissingArgument msg) ∨
        (∃ msg : String, e = Exception.InvalidArgument msg)) →
      processCommandLine (prog :: (pre ++ bad)) emptySettings = ⟨s, Completion.threw e⟩) ∧
    (∀ (cmdLineArgs : List String) (s : ProgramSettings) (n : Nat),
      processLoop cmdLineArgs 1 emptySettings 1 = ⟨s, n, none⟩ →
      ((withDefaults s n).cipherType.length ≠ n ∨ (withDefaults s n).cipherKey.length ≠ n) →
      processCommandLine cmdLineArgs emptySettings
        = ⟨withDefaults s n, Completion.threw (Exception.InvalidArgument
            ("expected types and keys for " ++ toString n ++ " ciphers\n"
              ++ "        but received " ++ toString (withDefaults s n).cipherType.length
              ++ " types and " ++ toString (withDefaults s n).cipherKey.length
              ++ " keys"))⟩) := by
  constructor
  · intro prog pre bad s n e hscan hh hv hbad _
    rw [processLoop_cons] at hbad
    rw [processCommandLine_append prog pre bad s n hscan hh hv, hbad,
      afterLoop_thrown _ _ rfl]
  · intro cmdLineArgs s n hscan hmis
    have hs := afterLoop_settings ⟨s, n, none⟩ rfl
    have hc := afterLoop_completion ⟨s, n, none⟩ rfl
    simp only [if_pos hmis] at hc
    rw [processCommandLine, hscan]
    cases hr : afterLoop ⟨s, n, none⟩ with
    | mk s1 c1 => rw [hr] at hs hc; simp only at hs hc; rw [hs, hc]

/-- C16 (amended), applied: after `-k x --bogus` the call throws InvalidArgument
while scanning and the caller's configuration holds the key `x`; after
`-k a -k b` the call throws InvalidArgument at the count check and the caller's
configuration holds both keys and the default Caesar kind. -/
theorem C16_failure_keeps_scanned_fields_witness :
    (processLoop ["mpags-cipher", "-k", "x"] 1 emptySettings 1
        = ⟨{ emptySettings with cipherKey := ["x"] }, 1, none⟩ ∧
      processLoop ["mpags-cipher", "--bogus"] 1 { emptySettings with cipherKey := ["x"] } 1
        = ⟨{ emptySettings with cipherKey := ["x"] }, 1,
            some (Exception.InvalidArgument "unknown argument \x27--bogus\x27")⟩ ∧
      processCommandLine ["mpags-cipher", "-k", "x", "--bogus"] emptySettings
        = ⟨{ emptySettings with cipherKey := ["x"] },
            Completion.threw (Exception.InvalidArgument "unknown argument \x27--bogus\x27")⟩) ∧
    (processLoop ["mpags-cipher", "-k", "a", "-k", "b"] 1 emptySettings 1
        = ⟨{ emptySettings with cipherKey := ["a", "b"] }, 1, none⟩ ∧
      processCommandLine ["mpags-cipher", "-k", "a", "-k", "b"] emptySettings
        = ⟨{ emptySettings with cipherType := [CipherType.Caesar], cipherKey := ["a", "b"] },
            Completion.threw (Exception.InvalidArgument
              "expected types and keys for 1 ciphers\n        but received 1 types and 2 keys")⟩) :=
  have hscan : processLoop ["mpags-cipher", "-k", "x"] 1 emptySettings 1
      = ⟨{ emptySettings with cipherKey := ["x"] }, 1, none⟩ := by
    rw [processLoop_cons]; decide
  have hbad : processLoop ["mpags-cipher", "--bogus"] 1
        { emptySettings with cipherKey := ["x"] } 1
      = ⟨{ emptySettings with cipherKey := ["x"] }, 1,
          some (Exception.InvalidArgument "unknown argument \x27--bogus\x27")⟩ := by
    rw [processLoop_cons]; decide
  have hscan2 : processLoop ["mpags-cipher", "-k", "a", "-k", "b"] 1 emptySettings 1
      = ⟨{ emptySettings with cipherKey := ["a", "b"] }, 1, none⟩ := by
    rw [processLoop_cons]; decide
  ⟨⟨hscan, hbad,
      C16_failure_keeps_scanned_fields.1 "mpags-cipher" ["-k", "x"] ["--bogus"] _ 1 _ hscan rfl
        rfl hbad (Or.inr ⟨_, rfl⟩)⟩,
    ⟨hscan2,
      C16_failure_keeps_scanned_fields.2 ["mpags-cipher", "-k", "a", "-k", "b"] _ 1 hscan2
        (by decide)⟩⟩

/-! ### The process boundary -/

/-- C18 (defect of the code): on the command line `[mpags-cipher, --bogus]`
parsing fails with InvalidArgument, which `main` does not catch: the exception
leaves `main` and the process is aborted instead of ending with exit status 1.
For comparison, `[mpags-cipher, -k]` fails with MissingArgument and ends with
exit status 1, and `[mpags-cipher, --help]` and `[mpags-cipher, --version]` end
with exit status 0 without reading input. -/
theorem C18_invalid_argument_not_caught (env : Environment) :
    (processCommandLine ["mpags-cipher", "--bogus"] emptySettings).completion
      = Completion.threw (Exception.InvalidArgument "unknown argument \x27--bogus\x27") ∧
    main ["mpags-cipher", "--bogus"] env = ⟨ProcessEnd.terminate, false, none⟩ ∧
    (main ["mpags-cipher", "--bogus"] env).ending ≠ ProcessEnd.exit 1 ∧
    main ["mpags-cipher", "-k"] env = ⟨ProcessEnd.exit 1, false, none⟩ ∧
    main ["mpags-cipher", "--help"] env = ⟨ProcessEnd.exit 0, false, none⟩ ∧
    main ["mpags-cipher", "--version"] env = ⟨ProcessEnd.exit 0, false, none⟩ := by
  have h1 : processCommandLine ["mpags-cipher", "--bogus"] emptySettings
      = ⟨emptySettings,
          Completion.threw (Exception.InvalidArgument "unknown argument \x27--bogus\x27")⟩ := by
    rw [processCommandLine_cons]; decide
  have h2 : processCommandLine ["mpags-cipher", "-k"] emptySettings
      = ⟨emptySettings,
          Completion.threw (Exception.MissingArgument "-k requires a positive integer argument")⟩ := by
    rw [processCommandLine_cons]; decide
  have h3 : processCommandLine ["mpags-cipher", "--help"] emptySettings
      = ⟨{ emptySettings with helpRequested := true, cipherType := [CipherType.Caesar],
                              cipherKey := [""] }, Completion.returned false⟩ := by
    rw [processCommandLine_cons]; decide
  have h4 : processCommandLine ["mpags-cipher", "--version"] emptySettings
      = ⟨{ emptySettings with versionRequested := true, cipherType := [CipherType.Caesar],
                              cipherKey := [""] }, Completion.returned false⟩ := by
    rw [processCommandLine_cons]; decide
  refine ⟨by rw [h1], ?_, ?_, ?_, ?_, ?_⟩
  · simp [main, h1]
  · simp [main, h1]
  · simp [main, h2]
  · simp only [main, h3]; rfl
  · simp only [main, h4]; rfl

/-- A parse failure with MissingArgument ends `main` with exit status 1. -/
theorem main_of_missing_argument (cmdLineArgs : List String) (env : Environment) (msg : String)
    (h : (processCommandLine cmdLineArgs emptySettings).completion
      = Completion.threw (Exception.MissingArgument msg)) :
    main cmdLineArgs env = ⟨ProcessEnd.exit 1, false, none⟩ := by
  simp only [main, h]

/-- A parse failure with InvalidArgument is not caught by `main`. -/
theorem main_of_invalid_argument (cmdLineArgs : List String) (env : Environment) (msg : String)
    (h : (processCommandLine cmdLineArgs emptySettings).completion
      = Completion.threw (Exception.InvalidArgument msg)) :
    main cmdLineArgs env = ⟨ProcessEnd.terminate, false, none⟩ := by
  simp only [main, h]

/-- A successful parse with help or version requested ends `main` with exit
status 0 before any input is read. -/
theorem main_of_help_or_version (cmdLineArgs : List String) (env : Environment) (value : Bool)
    (h : (processCommandLine cmdLineArgs emptySettings).completion = Completion.returned value)
    (hreq : (processCommandLine cmdLineArgs emptySettings).settings.helpRequested = true ∨
      (processCommandLine cmdLineArgs emptySettings).settings.versionRequested = true) :
    main cmdLineArgs env = ⟨ProcessEnd.exit 0, false, none⟩ := by
  simp only [main, h]
  rcases hreq with hr | hr
  · simp [hr]
  · simp [hr]

/-! ### Chunked and unchunked application of character-wise ciphers -/

theorem charwise_append (c : Cipher) (hc : IsCharwise c) (mode : CipherMode) (a b : String) :
    c.applyCipher (a ++ b) mode = c.applyCipher a mode ++ c.applyCipher b mode := by
  obtain ⟨f, hf⟩ := hc
  rw [hf, hf, hf]
  apply String.ext
  simp [String.data_append]

namespace main

/-- A sequence of character-wise ciphers can be applied to the parts of a text
separately. -/
theorem worker_append (ciphers : List Cipher) (hc : ∀ c ∈ ciphers, IsCharwise c)
    (mode : CipherMode) (a b : String) :
    worker ciphers mode (a ++ b) = worker ciphers mode a ++ worker ciphers mode b := by
  induction ciphers generalizing a b with
  | nil => rfl
  | cons c cs ih =>
    rw [worker_cons, worker_cons, worker_cons,
      charwise_append c (hc c (List.mem_cons_self _ _)) mode a b]
    exact ih (fun c' hc' => hc c' (List.mem_cons_of_mem _ hc')) _ _

theorem worker_eq_applySequence (T : List Cipher) (mode : CipherMode) (text : String) :
    worker (if mode = CipherMode.Decrypt then T.reverse else T) mode text
      = applySequence T mode text := by
  cases mode with
  | Encrypt => simp [applySequence, worker]
  | Decrypt => simp [applySequence, worker, List.foldl_reverse]

/-- For a text whose length is a multiple of four, the chunked application of
character-wise ciphers is the application to the whole text. -/
theorem runCiphers_charwise_aligned (T : List Cipher) (hc : ∀ c ∈ T, IsCharwise c)
    (mode : CipherMode) (text : String) (hdiv : 4 ∣ text.length) :
    runCiphers T mode text = some (applySequence T mode text) := by
  have hc2 : ∀ c ∈ (if mode = CipherMode.Decrypt then T.reverse else T), IsCharwise c := by
    intro c hm
    split_ifs at hm
    · exact hc c (List.mem_reverse.mp hm)
    · exact hc c hm
  rw [runCiphers_eq, ← worker_append _ hc2, ← worker_append _ hc2, ← worker_append _ hc2,
    pieces_cover text hdiv, worker_eq_applySequence]

end main

theorem upperCipher_charwise : IsCharwise upperCipher :=
  ⟨fun _ c => c.toUpper, fun _ _ => rfl⟩

/-- C19 (defect of the code): `upperCipher` acts character by character, yet on
the text `abcde` the chunked pipeline returns `ABCD` in both modes while the
cipher applied to the whole text gives `ABCDE`: the last character, which
reaches no worker, is missing from the output. -/
theorem C19_chunked_differs_from_whole :
    IsCharwise upperCipher ∧
    main.runCiphers [upperCipher] CipherMode.Encrypt "abcde" = some "ABCD" ∧
    main.applySequence [upperCipher] CipherMode.Encrypt "abcde" = "ABCDE" ∧
    main.runCiphers [upperCipher] CipherMode.Decrypt "abcde" = some "ABCD" ∧
    main.applySequence [upperCipher] CipherMode.Decrypt "abcde" = "ABCDE" ∧
    main.runCiphers [upperCipher] CipherMode.Encrypt "abcde"
      ≠ some (main.applySequence [upperCipher] CipherMode.Encrypt "abcde") := by
  refine ⟨upperCipher_charwise, ?_, ?_, ?_, ?_, ?_⟩ <;> decide

/-! ### An expected cipher count of zero -/

/-- C22: an expected cipher count of 0 is accepted exactly when no cipher is
supplied.  Parsing `[prog, --multi-cipher, 0]` from the empty configuration
succeeds with zero cipher kinds and zero keys (no default is added); and for
every token sequence whose scan raises no error and ends with expected count 0
in the configuration `s`, parsing succeeds, leaving `s`, when `s` has neither a
kind nor a key, and fails with InvalidArgument when at least one `-c` or `-k`
was collected. -/
theorem C22_zero_ciphers (prog : String) (cmdLineArgs : List String) (s : ProgramSettings)
    (hscan : processLoop cmdLineArgs 1 emptySettings 1 = ⟨s, 0, none⟩) :
    processCommandLine [prog, "--multi-cipher", "0"] emptySettings
      = ⟨emptySettings, Completion.returned false⟩ ∧
    ((s.cipherType = [] ∧ s.cipherKey = []) →
      processCommandLine cmdLineArgs emptySettings = ⟨s, Completion.returned false⟩) ∧
    ((s.cipherType ≠ [] ∨ s.cipherKey ≠ []) →
      (processCommandLine cmdLineArgs emptySettings).settings = s ∧
      ∃ msg : String,
        (processCommandLine cmdLineArgs emptySettings).completion
          = Completion.threw (Exception.InvalidArgument msg)) := by
  refine ⟨?_, ?_, ?_⟩
  · rw [processCommandLine_cons]; decide
  · rintro ⟨ht, hk⟩
    rw [processCommandLine, hscan]
    exact afterLoop_of_length s 0 (by rw [ht]; rfl) (by rw [hk]; rfl)
  · intro hne
    have hw : withDefaults s 0 = s := by
      obtain ⟨a1, a2, a3, a4, a5, a6, a7⟩ := s
      simp [withDefaults]
    constructor
    · rw [processCommandLine, hscan, afterLoop_settings _ rfl, hw]
    · rw [processCommandLine, hscan, afterLoop_completion _ rfl]
      simp only [hw]
      have hmis : s.cipherType.length ≠ 0 ∨ s.cipherKey.length ≠ 0 := by
        rcases hne with h | h
        · exact Or.inl (fun h0 => h (List.eq_nil_of_length_eq_zero h0))
        · exact Or.inr (fun h0 => h (List.eq_nil_of_length_eq_zero h0))
      rw [if_pos hmis]
      exact ⟨_, rfl⟩

/-- C22, applied: `--multi-cipher 0 -k 3` scans without error and fails the count
check with InvalidArgument. -/
theorem C22_zero_ciphers_witness :
    processLoop ["mpags-cipher", "--multi-cipher", "0", "-k", "3"] 1 emptySettings 1
      = ⟨{ emptySettings with cipherKey := ["3"] }, 0, none⟩ ∧
    processCommandLine ["mpags-cipher", "--multi-cipher", "0"] emptySettings
      = ⟨emptySettings, Completion.returned false⟩ ∧
    ∃ msg : String,
      (processCommandLine ["mpags-cipher", "--multi-cipher", "0", "-k", "3"]
          emptySettings).completion
        = Completion.threw (Exception.InvalidArgument msg) :=
  have hscan : processLoop ["mpags-cipher", "--multi-cipher", "0", "-k", "3"] 1 emptySettings 1
      = ⟨{ emptySettings with cipherKey := ["3"] }, 0, none⟩ := by
    rw [processLoop_cons]; decide
  have h := C22_zero_ciphers "mpags-cipher" ["mpags-cipher", "--multi-cipher", "0", "-k", "3"]
    _ hscan
  ⟨hscan, h.1, (h.2.2 (Or.inr (by decide))).2⟩

/-! ### Bounds of the accesses and progress of the loop -/

/-- The loop is its body followed by the loop at the next index. -/
theorem processLoop_eq_loopBody (cmdLineArgs : List String) (i : Nat) (s : ProgramSettings)
    (n : Nat) (hi : i < cmdLineArgs.length) :
    processLoop cmdLineArgs i s n = continueLoop cmdLineArgs (loopBody cmdLineArgs i s n) := by
  rw [processLoop]
  simp only [hi, dite_true, loopBody]
  cases h0 : index cmdLineArgs i with
  | none => rfl
  | some arg =>
    simp only []
    cases h1 : index cmdLineArgs (i + 1) with
    | none =>
      simp only [apply_ite (continueLoop cmdLineArgs)]
      simp only [continueLoop]
    | some arg1 =>
      simp only []
      cases hs : stoul arg1 with
      | error x =>
        simp only [apply_ite (continueLoop cmdLineArgs)]
        simp only [continueLoop]
      | ok m =>
        simp only [apply_ite (continueLoop cmdLineArgs)]
        simp only [continueLoop]

theorem index_some_lt (v : List String) (i : Nat) (x : String) (h : index v i = some x) :
    i < v.length := by
  unfold index at h
  by_contra hlt
  rw [List.getElem?_eq_none (by omega)] at h
  cases h

/-- The index after an iteration at `i`, when the loop goes on, is `i + 1` or
`i + 2`, and it is not beyond the end of the vector. -/
theorem nextIndex_loopBody (cmdLineArgs : List String) (i : Nat) (s : ProgramSettings)
    (n : Nat) (i1 : Nat) :
    nextIndex (loopBody cmdLineArgs i s n) = some i1 → i < i1 ∧ i1 ≤ cmdLineArgs.length := by
  unfold loopBody
  cases h0 : index cmdLineArgs i with
  | none =>
    simp only [nextIndex]
    intro hx
    exact absurd hx (by simp)
  | some arg =>
    have hi := index_some_lt _ _ _ h0
    simp only []
    by_cases hl : i = cmdLineArgs.length - 1
    · rcases flag_cases arg with h | h | h | h | h | h | h | h | h | h | h
      · subst h; simp [nextIndex]
      · subst h; simp [nextIndex]
      · subst h; simp [nextIndex]
      · subst h; simp [nextIndex, ← hl]
      · subst h; simp [nextIndex, ← hl]
      · subst h; simp [nextIndex, ← hl]
      · subst h; simp [nextIndex, ← hl]
      · subst h; simp [nextIndex]; intro hx; omega
      · subst h; simp [nextIndex]; intro hx; omega
      · subst h; simp [nextIndex, ← hl]
      · obtain ⟨h1, h2, h3, h4, h5, h6, h7, h8, h9, h10⟩ := h
        simp [nextIndex, h1, h2, h3, h4, h5, h6, h7, h8, h9, h10]
    · cases h1 : index cmdLineArgs (i + 1) with
      | none =>
        rcases flag_cases arg with h | h | h | h | h | h | h | h | h | h | h
        · subst h; simp [nextIndex]
        · subst h; simp [nextIndex]
        · subst h; simp [nextIndex]
        · subst h; simp [nextIndex, hl]
        · subst h; simp [nextIndex, hl]
        · subst h; simp [nextIndex, hl]
        · subst h; simp [nextIndex, hl]
        · subst h; simp [nextIndex]; intro hx; omega
        · subst h; simp [nextIndex]; intro hx; omega
        · subst h; simp [nextIndex, hl]
        · obtain ⟨h1, h2, h3, h4, h5, h6, h7, h8, h9, h10⟩ := h
          simp [nextIndex, h1, h2, h3, h4, h5, h6, h7, h8, h9, h10]
      | some arg1 =>
        have hi1 := index_some_lt _ _ _ h1
        rcases flag_cases arg with h | h | h | h | h | h | h | h | h | h | h
        · subst h; simp [nextIndex]
        · subst h; simp [nextIndex]
        · subst h; simp [nextIndex]
        · subst h
          by_cases he : arg1.isEmpty = true
          · simp [nextIndex, hl, he]
          · cases hs : stoul arg1 with
            | error x => simp [nextIndex, hl, he, hs]
            | ok m => simp [nextIndex, hl, he, hs]; intro hx; omega
        · subst h; simp [nextIndex, hl]; intro hx; omega
        · subst h; simp [nextIndex, hl]; intro hx; omega
        · subst h; simp [nextIndex, hl]; intro hx; omega
        · subst h; simp [nextIndex]; intro hx; omega
        · subst h; simp [nextIndex]; intro hx; omega
        · subst h
          by_cases c1 : arg1 = "caesar"
          · simp [nextIndex, hl, c1]; intro hx; omega
          · by_cases c2 : arg1 = "playfair"
            · simp [nextIndex, hl, c2]; intro hx; omega
            · by_cases c3 : arg1 = "vigenere"
              · simp [nextIndex, hl, c3]; intro hx; omega
              · simp [nextIndex, hl, c1, c2, c3]
        · obtain ⟨h1, h2, h3, h4, h5, h6, h7, h8, h9, h10⟩ := h
          simp [nextIndex, h1, h2, h3, h4, h5, h6, h7, h8, h9, h10]

/-- An iteration that goes on does so at a larger index, not beyond the end of
the vector. -/
theorem loopBody_next (cmdLineArgs : List String) (i : Nat) (s : ProgramSettings) (n : Nat)
    (i1 : Nat) (s1 : ProgramSettings) (n1 : Nat)
    (h : loopBody cmdLineArgs i s n = LoopStep.next i1 s1 n1) :
    i < i1 ∧ i1 ≤ cmdLineArgs.length :=
  nextIndex_loopBody cmdLineArgs i s n i1 (by rw [h]; rfl)

theorem processLoop_of_not_lt (cmdLineArgs : List String) (i : Nat) (s : ProgramSettings)
    (n : Nat) (hi : ¬ i < cmdLineArgs.length) :
    processLoop cmdLineArgs i s n = ⟨s, n, none⟩ := by
  rw [processLoop]
  simp [hi]

/-- With as many iterations allowed as there are tokens from the index on, the
bounded iteration leaves the loop, in the state `processLoop` computes. -/
theorem runLoop_eq_processLoop (cmdLineArgs : List String) (fuel : Nat) :
    ∀ (i : Nat) (s : ProgramSettings) (n : Nat), cmdLineArgs.length - i ≤ fuel →
      runLoop cmdLineArgs fuel i s n = some (processLoop cmdLineArgs i s n) := by
  induction fuel with
  | zero =>
    intro i s n hf
    have hi : ¬ i < cmdLineArgs.length := by omega
    rw [processLoop_of_not_lt _ _ _ _ hi]
    simp [runLoop, hi]
  | succ fuel ih =>
    intro i s n hf
    by_cases hi : i < cmdLineArgs.length
    · rw [processLoop_eq_loopBody _ _ _ _ hi]
      simp only [runLoop, hi, if_true]
      cases hb : loopBody cmdLineArgs i s n with
      | next i1 s1 n1 =>
        have hlt := loopBody_next _ _ _ _ _ _ _ hb
        simp only [continueLoop]
        exact ih i1 s1 n1 (by omega)
      | leave loopExit => rfl
    · rw [processLoop_of_not_lt _ _ _ _ hi]
      simp [runLoop, hi]

/-- The loop, entered at any index, is never left by an access outside the
vector. -/
theorem processLoop_in_bounds (cmdLineArgs : List String) (i : Nat) (s : ProgramSettings)
    (n : Nat) : (processLoop cmdLineArgs i s n).thrown ≠ some Exception.OutOfBounds := by
  by_cases hi : i < cmdLineArgs.length
  · have hsplit := processLoop_append (cmdLineArgs.take i) (cmdLineArgs.drop i) s n
    rw [List.take_append_drop, List.length_take, Nat.min_eq_left (Nat.le_of_lt hi)] at hsplit
    rw [hsplit]
    intro hx
    rcases scan_thrown_typed _ _ _ _ hx with ⟨msg, hm⟩ | ⟨msg, hm⟩ <;> cases hm
  · rw [processLoop_of_not_lt _ _ _ _ hi]
    intro hx
    cases hx

/-- C21: for every token sequence (the empty one and those ending in a
value-requiring flag included) and every configuration, no element access made
by `processCommandLine` is outside the vector: the call never ends with the
out-of-bounds marker, and neither does the loop entered at any index, nor any
single iteration at an index below the size.  The loop index strictly
increases from one iteration to the next and stays within the size, so that the
loop is left after at most `size - i` iterations from index `i`, in particular
after at most `size - 1` iterations from index 1: one pass over the tokens. -/
theorem C21_accesses_in_bounds_and_progress (cmdLineArgs : List String)
    (settings : ProgramSettings) :
    (processCommandLine cmdLineArgs settings).completion
      ≠ Completion.threw Exception.OutOfBounds ∧
    (∀ (i : Nat) (s : ProgramSettings) (n : Nat),
      (processLoop cmdLineArgs i s n).thrown ≠ some Exception.OutOfBounds) ∧
    (∀ (i : Nat) (s : ProgramSettings) (n : Nat) (loopExit : LoopExit),
      i < cmdLineArgs.length → loopBody cmdLineArgs i s n = LoopStep.leave loopExit →
      loopExit.thrown ≠ some Exception.OutOfBounds) ∧
    (∀ (i : Nat) (s : ProgramSettings) (n : Nat) (i1 : Nat) (s1 : ProgramSettings) (n1 : Nat),
      loopBody cmdLineArgs i s n = LoopStep.next i1 s1 n1 →
      i < i1 ∧ i1 ≤ cmdLineArgs.length) ∧
    (∀ (i : Nat) (s : ProgramSettings) (n : Nat),
      runLoop cmdLineArgs (cmdLineArgs.length - i) i s n
        = some (processLoop cmdLineArgs i s n)) ∧
    runLoop cmdLineArgs (cmdLineArgs.length - 1) 1 settings 1
      = some (processLoop cmdLineArgs 1 settings 1) := by
  refine ⟨?_, ?_, ?_, ?_, ?_, ?_⟩
  · have hb := processLoop_in_bounds cmdLineArgs 1 settings 1
    rw [processCommandLine]
    cases ht : (processLoop cmdLineArgs 1 settings 1).thrown with
    | some e =>
      rw [afterLoop_thrown _ e ht]
      intro hx
      rw [ht] at hb
      cases hx
      exact hb rfl
    | none =>
      rw [afterLoop_completion _ ht]
      split_ifs <;> intro hx <;> cases hx
  · exact processLoop_in_bounds cmdLineArgs
  · intro i s n loopExit hi hb
    have h := processLoop_in_bounds cmdLineArgs i s n
    rw [processLoop_eq_loopBody _ _ _ _ hi, hb] at h
    exact h
  · exact loopBody_next cmdLineArgs
  · intro i s n
    exact runLoop_eq_processLoop cmdLineArgs _ i s n (Nat.le_refl _)
  · exact runLoop_eq_processLoop cmdLineArgs _ 1 settings 1 (Nat.le_refl _)

/-- C21, applied: on `[mpags-cipher, -k, 4]` the iteration at index 1 goes on at
index 3, which is the size; on `[mpags-cipher, -k]` the iteration at index 1
leaves the loop with MissingArgument and without any access outside the
vector; on the empty vector no iteration is run. -/
theorem C21_accesses_in_bounds_and_progress_witness :
    loopBody ["mpags-cipher", "-k", "4"] 1 emptySettings 1
      = LoopStep.next 3 { emptySettings with cipherKey := ["4"] } 1 ∧
    (1 < 3 ∧ 3 ≤ ["mpags-cipher", "-k", "4"].length) ∧
    loopBody ["mpags-cipher", "-k"] 1 emptySettings 1
      = LoopStep.leave ⟨emptySettings, 1,
          some (Exception.MissingArgument "-k requires a positive integer argument")⟩ ∧
    (processCommandLine ["mpags-cipher", "-k"] emptySettings).completion
      ≠ Completion.threw Exception.OutOfBounds ∧
    runLoop [] 0 1 emptySettings 1 = some (processLoop [] 1 emptySettings 1) :=
  have hb : loopBody ["mpags-cipher", "-k", "4"] 1 emptySettings 1
      = LoopStep.next 3 { emptySettings with cipherKey := ["4"] } 1 := by decide
  ⟨hb,
    (C21_accesses_in_bounds_and_progress ["mpags-cipher", "-k", "4"] emptySettings).2.2.2.1
      1 emptySettings 1 3 _ 1 hb,
    by decide,
    (C21_accesses_in_bounds_and_progress ["mpags-cipher", "-k"] emptySettings).1,
    (C21_accesses_in_bounds_and_progress [] emptySettings).2.2.2.2.2⟩

end MPAGSCipher
